import Mathlib

/-!
Verification development for the `arff-csv` repository (ARFF parser and
writer, `src/arff_csv/parser.py` and `src/arff_csv/writer.py`).

Python strings are modelled as `List Char` (called `Str` below); a parsed
text file is modelled as its list of lines (the code strips each physical
line, so the line abstraction is exact for newline-free content).  Python
floats are modelled as exact decimal numbers `m / 10^e` (an integer
mantissa with a decimal exponent); Python's shortest-round-trip float
printing corresponds to the canonical form `e = 0 ∨ m % 10 ≠ 0`.
`pandas.to_datetime` / `strftime` are abstracted as an explicit
`DateModel` parameter (a parse and a render function); everything the
claims need about dates is independent of the concrete model.
-/

abbrev Str := List Char

def str (s : String) : Str := s.data

/-- Whitespace as recognised by Python `str.strip` (the common cases). -/
def wsp (c : Char) : Bool := c = ' ' || c = '\t' || c = '\n' || c = '\r'

/-- Model of Python `str.strip()`. -/
def pstrip (s : Str) : Str := ((s.dropWhile wsp).reverse.dropWhile wsp).reverse

/-- Model of Python `str.lower()` (ASCII, enough for ARFF directives). -/
def lowerStr (s : Str) : Str := s.map Char.toLower

/-- Model of Python `str.upper()`. -/
def upperStr (s : Str) : Str := s.map Char.toUpper

/-- Join a list of strings with a separator, Python `sep.join(xs)`. -/
def joinSep (sep : Str) : List Str → Str
  | [] => []
  | [x] => x
  | x :: y :: xs => x ++ sep ++ joinSep sep (y :: xs)

/-- Is the character one of the two ARFF quote characters. -/
def isQuoteCh (c : Char) : Bool := c = '\'' || c = '"'

/-! ## Decimal digits -/

def digitChar (d : Nat) : Char := Char.ofNat (48 + d)

/-- Digit accumulation with explicit fuel (structural, so the kernel can
evaluate it; the fuel is always at least the number being rendered). -/
def natDigitsF : Nat → Nat → List Char → List Char
  | 0, _, acc => acc
  | _ + 1, 0, acc => acc
  | f + 1, n + 1, acc => natDigitsF f ((n + 1) / 10) (digitChar ((n + 1) % 10) :: acc)

/-- Decimal digit string of a natural number, Python `str(n)` for `n ≥ 0`. -/
def natDigits (n : Nat) : Str :=
  if n = 0 then ['0'] else natDigitsF n n []

/-- Decimal rendering of an integer, Python `str(m)`. -/
def intRender (m : Int) : Str :=
  if m < 0 then '-' :: natDigits m.natAbs else natDigits m.natAbs

def digitVal (c : Char) : Nat := c.toNat - 48

/-- Numeric value of a digit string (leading zeros allowed). -/
def digitsVal (s : Str) : Nat := s.foldl (fun acc c => acc * 10 + digitVal c) 0

theorem natDigitsF_acc (f : Nat) :
    ∀ n acc, natDigitsF f n acc = natDigitsF f n [] ++ acc := by
  induction f with
  | zero => intro n acc; simp [natDigitsF]
  | succ f ih =>
    intro n acc
    match n with
    | 0 => simp [natDigitsF]
    | m + 1 =>
      rw [natDigitsF, natDigitsF, ih ((m + 1) / 10), ih ((m + 1) / 10) [digitChar ((m + 1) % 10)]]
      simp

theorem digitsVal_append (a b : Str) :
    digitsVal (a ++ b) = digitsVal a * 10 ^ b.length + digitsVal b := by
  induction b using List.reverseRecOn with
  | nil => simp [digitsVal]
  | append_singleton b c ih =>
    have h1 : a ++ (b ++ [c]) = (a ++ b) ++ [c] := by simp
    rw [h1]
    simp only [digitsVal, List.foldl_append, List.foldl_cons, List.foldl_nil] at *
    rw [ih, List.length_append, List.length_singleton, pow_succ]
    ring

theorem digitVal_digitChar (d : Nat) (hd : d < 10) : digitVal (digitChar d) = d := by
  interval_cases d <;> decide

theorem digitsVal_natDigitsF (f : Nat) :
    ∀ n, n ≤ f → digitsVal (natDigitsF f n []) = n := by
  induction f with
  | zero =>
    intro n hn
    interval_cases n
    decide
  | succ f ih =>
    intro n hn
    match n with
    | 0 => simp [natDigitsF, digitsVal]
    | m + 1 =>
      rw [natDigitsF, natDigitsF_acc, digitsVal_append]
      have hq : (m + 1) / 10 ≤ f := by
        have := Nat.div_lt_self (Nat.succ_pos m) (by norm_num : 1 < 10)
        omega
      rw [ih _ hq]
      have h2 : digitsVal [digitChar ((m + 1) % 10)] = (m + 1) % 10 := by
        simp [digitsVal, digitVal_digitChar ((m + 1) % 10) (Nat.mod_lt _ (by norm_num))]
      rw [h2]
      simp only [List.length_singleton, pow_one]
      omega

theorem digitsVal_natDigits (n : Nat) : digitsVal (natDigits n) = n := by
  rw [natDigits]
  split
  · rename_i h; subst h; decide
  · exact digitsVal_natDigitsF n n le_rfl

theorem natDigitsF_last (f : Nat) :
    ∀ n, 0 < n → n ≤ f →
      natDigitsF f n [] = natDigitsF (f - 1) (n / 10) [] ++ [digitChar (n % 10)] := by
  intro n hn hf
  match f, n with
  | 0, n => omega
  | f + 1, 0 => omega
  | f + 1, m + 1 =>
    rw [natDigitsF, natDigitsF_acc]
    simp

theorem digitChar_isDigit (d : Nat) (hd : d < 10) : (digitChar d).isDigit = true := by
  interval_cases d <;> decide

theorem natDigitsF_digits (f : Nat) :
    ∀ n, ∀ c ∈ natDigitsF f n [], c.isDigit = true := by
  induction f with
  | zero => intro n c hc; simp [natDigitsF] at hc
  | succ f ih =>
    intro n c hc
    match n with
    | 0 => simp [natDigitsF] at hc
    | m + 1 =>
      rw [natDigitsF, natDigitsF_acc] at hc
      rcases List.mem_append.mp hc with h | h
      · exact ih _ c h
      · simp only [List.mem_singleton] at h
        subst h
        exact digitChar_isDigit _ (Nat.mod_lt _ (by norm_num))

theorem natDigits_digits (n : Nat) : ∀ c ∈ natDigits n, c.isDigit = true := by
  rw [natDigits]
  split
  · intro c hc; simp only [List.mem_singleton] at hc; subst hc; decide
  · exact natDigitsF_digits n n

theorem natDigits_ne_nil (n : Nat) : natDigits n ≠ [] := by
  rw [natDigits]
  split
  · simp
  · rename_i h
    match hn : n with
    | 0 => exact absurd rfl h
    | m + 1 =>
      rw [natDigitsF_last (m + 1) (m + 1) (Nat.succ_pos m) le_rfl]
      simp

theorem natDigitsF_length (f : Nat) :
    ∀ n k, n ≤ f → n < 10 ^ k → (natDigitsF f n []).length ≤ k := by
  induction f with
  | zero =>
    intro n k hn _
    interval_cases n
    simp [natDigitsF]
  | succ f ih =>
    intro n k hn hk
    match n with
    | 0 => simp [natDigitsF]
    | m + 1 =>
      rw [natDigitsF, natDigitsF_acc]
      have hkpos : 1 ≤ k := by
        by_contra h
        have hk0 : k = 0 := by omega
        subst hk0
        simp at hk
      have hq1 : (m + 1) / 10 ≤ f := by
        have := Nat.div_lt_self (Nat.succ_pos m) (by norm_num : 1 < 10)
        omega
      have hq2 : (m + 1) / 10 < 10 ^ (k - 1) := by
        rw [Nat.div_lt_iff_lt_mul (by norm_num : 0 < 10)]
        calc m + 1 < 10 ^ k := hk
          _ = 10 ^ (k - 1) * 10 := by
              rw [← pow_succ]
              congr 1
              omega
      have := ih _ _ hq1 hq2
      simp only [List.length_append, List.length_singleton]
      omega

theorem natDigits_length_le (n k : Nat) (h : n < 10 ^ k) (hk : 1 ≤ k) :
    (natDigits n).length ≤ k := by
  rw [natDigits]
  split
  · simpa using hk
  · exact natDigitsF_length n n k le_rfl h

/-! ## Numeric tokens

The writer's `_format_value` renders a numeric cell; the parser's
`_create_dataframe` feeds the token to `pandas.to_numeric`.  Numeric cells
are modelled as exact decimals `m / 10 ^ e`; `parseNum` models the plain
sign/digits/point decimal forms accepted by `to_numeric` (scientific
notation and the infinity words, which the writer never produces for
finite decimal values, are omitted), normalising away trailing fractional
zeros exactly as float parsing identifies `1.50` with `1.5`. -/

def allDigits (s : Str) : Bool := s.all (·.isDigit)

def stripTrailingZeros (s : Str) : Str := (s.reverse.dropWhile (· = '0')).reverse

/-- Leading-sign handling of Python numeric parsing. -/
def splitSign (s : Str) : Bool × Str :=
  match s with
  | [] => (false, [])
  | c :: r =>
      if c = '-' then (true, r)
      else if c = '+' then (false, r)
      else (false, c :: r)

def condInt (neg : Bool) (v : Nat) : Int := if neg then -(v : Int) else (v : Int)

/-- Digits-and-point recogniser shared by `parseNum` after sign removal. -/
def parseNumCore (neg : Bool) (rest : Str) : Option (Int × Nat) :=
  let ip := rest.takeWhile (fun c => !(c == '.'))
  match rest.dropWhile (fun c => !(c == '.')) with
  | [] =>
      if allDigits ip && !ip.isEmpty then some (condInt neg (digitsVal ip), 0) else none
  | c :: r =>
      if (c == '.') && !(r.contains '.') && allDigits ip && allDigits r
          && !(ip.isEmpty && r.isEmpty) then
        some (condInt neg (digitsVal (ip ++ stripTrailingZeros r)),
          (stripTrailingZeros r).length)
      else none

/-- Model of `pandas.to_numeric` on a single cleaned token (decimal forms).
Returns the canonical mantissa/exponent pair. -/
def parseNum (s : Str) : Option (Int × Nat) :=
  parseNumCore (splitSign s).1 (splitSign s).2

/-- The writer's numeric rendering (`_format_value`): whole values print as
plain integers, other decimals with a point and no trailing zeros. -/
def renderNum (m : Int) (e : Nat) : Str :=
  if e = 0 then intRender m
  else
    let a := m.natAbs
    let frac := List.replicate (e - (natDigits (a % 10 ^ e)).length) '0'
      ++ natDigits (a % 10 ^ e)
    (if m < 0 then ['-'] else []) ++ natDigits (a / 10 ^ e) ++ '.' :: frac

/-- Canonical decimal pair: whole numbers carry exponent zero, fractional
ones have no trailing zero digit (this is the shape float repr produces). -/
def canonDec (m : Int) (e : Nat) : Bool := e == 0 || !(m % 10 == 0)

theorem splitSign_neg (r : Str) : splitSign ('-' :: r) = (true, r) := by
  simp [splitSign]

theorem splitSign_digit (c : Char) (cs : Str) (h : c.isDigit = true) :
    splitSign (c :: cs) = (false, c :: cs) := by
  have h1 : c ≠ '-' := by
    intro he; subst he; simp [Char.isDigit] at h
  have h2 : c ≠ '+' := by
    intro he; subst he; simp [Char.isDigit] at h
  simp [splitSign, h1, h2]

theorem digit_not_dot (c : Char) (h : c.isDigit = true) : (!(c == '.')) = true := by
  have hne : c ≠ '.' := by intro he; subst he; simp [Char.isDigit] at h
  simp [hne]

theorem takeWhile_all_append (p : Char → Bool) (xs : Str) (y : Char) (ys : Str)
    (hx : ∀ c ∈ xs, p c = true) (hy : p y = false) :
    (xs ++ y :: ys).takeWhile p = xs ∧ (xs ++ y :: ys).dropWhile p = y :: ys := by
  induction xs with
  | nil => simp [List.takeWhile, List.dropWhile, hy]
  | cons a as ih =>
    have ha : p a = true := hx a (List.mem_cons_self a as)
    have ih2 := ih (fun c hc => hx c (List.mem_cons_of_mem a hc))
    simp [List.takeWhile, List.dropWhile, ha, ih2.1, ih2.2]

theorem takeWhile_all (p : Char → Bool) (xs : Str) (hx : ∀ c ∈ xs, p c = true) :
    xs.takeWhile p = xs ∧ xs.dropWhile p = [] := by
  induction xs with
  | nil => simp
  | cons a as ih =>
    have ha : p a = true := hx a (List.mem_cons_self a as)
    have ih2 := ih (fun c hc => hx c (List.mem_cons_of_mem a hc))
    simp [List.takeWhile, List.dropWhile, ha, ih2.1, ih2.2]

theorem stripTrailingZeros_last (xs : Str) (c : Char) (hc : c ≠ '0') :
    stripTrailingZeros (xs ++ [c]) = xs ++ [c] := by
  unfold stripTrailingZeros
  rw [List.reverse_append]
  simp [List.dropWhile, hc]

theorem digitsVal_replicate_zero (k : Nat) (xs : Str) :
    digitsVal (List.replicate k '0' ++ xs) = digitsVal xs := by
  rw [digitsVal_append]
  have h : digitsVal (List.replicate k '0') = 0 := by
    induction k with
    | zero => decide
    | succ k ih =>
      have h2 : List.replicate (k + 1) '0' = List.replicate k '0' ++ ['0'] := by
        rw [List.replicate_succ']
      rw [h2, digitsVal_append, ih]
      decide
  rw [h]
  ring

theorem digitChar_ne_zero (d : Nat) (hd : d < 10) (h0 : d ≠ 0) : digitChar d ≠ '0' := by
  interval_cases d <;> simp_all <;> decide

theorem natDigits_last (n : Nat) (hn : 0 < n) :
    ∃ ds, natDigits n = ds ++ [digitChar (n % 10)] := by
  rw [natDigits]
  have h : ¬ n = 0 := Nat.pos_iff_ne_zero.mp hn
  simp only [h, if_false]
  exact ⟨natDigitsF (n - 1) (n / 10) [], natDigitsF_last n n hn le_rfl⟩

theorem parseNumCore_digits (neg : Bool) (ip : Str)
    (hip : ∀ c ∈ ip, c.isDigit = true) (hne : ip ≠ []) :
    parseNumCore neg ip = some (condInt neg (digitsVal ip), 0) := by
  have htake := takeWhile_all (fun c => !(c == '.')) ip
    (fun c hc => digit_not_dot c (hip c hc))
  have hAD : allDigits ip = true := by
    unfold allDigits
    exact List.all_eq_true.mpr (fun c hc => hip c hc)
  have hne2 : ip.isEmpty = false := by
    cases ip with
    | nil => exact absurd rfl hne
    | cons a as => rfl
  simp only [parseNumCore]
  rw [htake.1, htake.2]
  simp [hAD, hne2]

theorem parseNumCore_frac (neg : Bool) (ip f : Str)
    (hip : ∀ c ∈ ip, c.isDigit = true) (hf : ∀ c ∈ f, c.isDigit = true)
    (hne : ip ≠ []) (hstrip : stripTrailingZeros f = f) :
    parseNumCore neg (ip ++ '.' :: f)
      = some (condInt neg (digitsVal (ip ++ f)), f.length) := by
  have htake := takeWhile_all_append (fun c => !(c == '.')) ip '.' f
    (fun c hc => digit_not_dot c (hip c hc)) (by simp)
  have hAD : allDigits ip = true := by
    unfold allDigits
    exact List.all_eq_true.mpr (fun c hc => hip c hc)
  have hADf : allDigits f = true := by
    unfold allDigits
    exact List.all_eq_true.mpr (fun c hc => hf c hc)
  have hne2 : ip.isEmpty = false := by
    cases ip with
    | nil => exact absurd rfl hne
    | cons a as => rfl
  have hnodot : f.contains '.' = false := by
    rw [List.contains_eq_any_beq]
    simp only [List.any_eq_false]
    intro c hc
    have hcd := hf c hc
    simp only [beq_iff_eq]
    intro heq; subst heq; simp [Char.isDigit] at hcd
  have hnodot2 : '.' ∉ f := by
    intro hc
    have hcd := hf '.' hc
    simp [Char.isDigit] at hcd
  simp only [parseNumCore]
  rw [htake.1, htake.2]
  simp [hAD, hADf, hne2, hnodot, hnodot2, hstrip]

theorem condInt_true (v : Nat) : condInt true v = -(v : Int) := by
  simp [condInt]

theorem condInt_false (v : Nat) : condInt false v = (v : Int) := by
  simp [condInt]

theorem parseNum_neg_head (r : Str) : parseNum ('-' :: r) = parseNumCore true r := by
  unfold parseNum
  rw [splitSign_neg]

theorem parseNum_digit_head (c : Char) (cs : Str) (h : c.isDigit = true) :
    parseNum (c :: cs) = parseNumCore false (c :: cs) := by
  unfold parseNum
  rw [splitSign_digit c cs h]

/-- Parsing inverts rendering on canonical decimal pairs. -/
theorem parseNum_renderNum (m : Int) (e : Nat) (h : canonDec m e = true) :
    parseNum (renderNum m e) = some (m, e) := by
  by_cases he : e = 0
  · subst he
    rw [renderNum, if_pos rfl, intRender]
    rcases lt_or_ge m 0 with hm | hm
    · rw [if_pos hm, parseNum_neg_head,
        parseNumCore_digits true (natDigits m.natAbs)
          (natDigits_digits m.natAbs) (natDigits_ne_nil m.natAbs),
        digitsVal_natDigits, condInt_true]
      have hmm : -(m.natAbs : Int) = m := by omega
      rw [hmm]
    · rw [if_neg (not_lt.mpr hm)]
      cases hh : natDigits m.natAbs with
      | nil => exact absurd hh (natDigits_ne_nil _)
      | cons a as =>
        have ha : a.isDigit = true := natDigits_digits m.natAbs a
          (by rw [hh]; exact List.mem_cons_self a as)
        have hd : ∀ c ∈ a :: as, c.isDigit = true := by
          rw [← hh]; exact natDigits_digits m.natAbs
        rw [parseNum_digit_head a as ha,
          parseNumCore_digits false (a :: as) hd (by simp), ← hh,
          digitsVal_natDigits, condInt_false]
        have hmm : (m.natAbs : Int) = m := by omega
        rw [hmm]
  · -- fractional: the mantissa ends in a nonzero digit
    have hm10 : ¬ m % 10 = 0 := by
      simp only [canonDec, Bool.or_eq_true, beq_iff_eq, Bool.not_eq_true',
        beq_eq_false_iff_ne, ne_eq] at h
      rcases h with h1 | h1
      · exact absurd h1 he
      · exact h1
    have ha10 : m.natAbs % 10 ≠ 0 := by
      intro hc
      apply hm10
      have h2 : ((10 : Int)).natAbs ∣ m.natAbs := Nat.dvd_of_mod_eq_zero hc
      have h3 : (10 : Int) ∣ m := Int.natAbs_dvd_natAbs.mp h2
      exact Int.emod_eq_zero_of_dvd h3
    have hepos : 1 ≤ e := Nat.one_le_iff_ne_zero.mpr he
    have hfq10 : m.natAbs % 10 ^ e % 10 = m.natAbs % 10 :=
      Nat.mod_mod_of_dvd _ (dvd_pow_self 10 he)
    have hfq0 : 0 < m.natAbs % 10 ^ e := by
      rcases Nat.eq_zero_or_pos (m.natAbs % 10 ^ e) with h0 | h0
      · exfalso; apply ha10; rw [← hfq10, h0]
      · exact h0
    obtain ⟨ds, hds⟩ := natDigits_last (m.natAbs % 10 ^ e) hfq0
    have hlast : digitChar (m.natAbs % 10 ^ e % 10) ≠ '0' := by
      apply digitChar_ne_zero _ (Nat.mod_lt _ (by norm_num))
      rw [hfq10]; exact ha10
    have hfraclen : (natDigits (m.natAbs % 10 ^ e)).length ≤ e :=
      natDigits_length_le _ _ (Nat.mod_lt _ (Nat.pos_pow_of_pos e (by norm_num))) hepos
    have hfrac_digits : ∀ c ∈ List.replicate (e - (natDigits (m.natAbs % 10 ^ e)).length) '0'
        ++ natDigits (m.natAbs % 10 ^ e), c.isDigit = true := by
      intro c hc
      rcases List.mem_append.mp hc with h1 | h1
      · rw [List.eq_of_mem_replicate h1]; decide
      · exact natDigits_digits _ c h1
    have hfracstrip : stripTrailingZeros
        (List.replicate (e - (natDigits (m.natAbs % 10 ^ e)).length) '0'
          ++ natDigits (m.natAbs % 10 ^ e))
        = List.replicate (e - (natDigits (m.natAbs % 10 ^ e)).length) '0'
          ++ natDigits (m.natAbs % 10 ^ e) := by
      rw [hds, ← List.append_assoc]
      exact stripTrailingZeros_last _ _ hlast
    have hfraclen2 : (List.replicate (e - (natDigits (m.natAbs % 10 ^ e)).length) '0'
        ++ natDigits (m.natAbs % 10 ^ e)).length = e := by
      rw [List.length_append, List.length_replicate]
      omega
    have hval : digitsVal (natDigits (m.natAbs / 10 ^ e)
        ++ (List.replicate (e - (natDigits (m.natAbs % 10 ^ e)).length) '0'
            ++ natDigits (m.natAbs % 10 ^ e))) = m.natAbs := by
      rw [digitsVal_append, digitsVal_replicate_zero, digitsVal_natDigits,
        digitsVal_natDigits, hfraclen2, Nat.mul_comm]
      exact Nat.div_add_mod m.natAbs (10 ^ e)
    rw [renderNum]
    simp only [he, if_false]
    rcases lt_or_ge m 0 with hm | hm
    · rw [if_pos hm]
      show parseNum ('-' :: (natDigits (m.natAbs / 10 ^ e) ++ '.' ::
        (List.replicate (e - (natDigits (m.natAbs % 10 ^ e)).length) '0'
          ++ natDigits (m.natAbs % 10 ^ e)))) = _
      rw [parseNum_neg_head,
        parseNumCore_frac true (natDigits (m.natAbs / 10 ^ e)) _
          (natDigits_digits _) hfrac_digits (natDigits_ne_nil _) hfracstrip,
        hval, hfraclen2, condInt_true]
      have hmm : -(m.natAbs : Int) = m := by omega
      rw [hmm]
    · rw [if_neg (not_lt.mpr hm), List.nil_append]
      cases hh : natDigits (m.natAbs / 10 ^ e) with
      | nil => exact absurd hh (natDigits_ne_nil _)
      | cons a as =>
        have ha : a.isDigit = true := natDigits_digits _ a
          (by rw [hh]; exact List.mem_cons_self a as)
        show parseNum (a :: (as ++ '.' ::
          (List.replicate (e - (natDigits (m.natAbs % 10 ^ e)).length) '0'
            ++ natDigits (m.natAbs % 10 ^ e)))) = _
        rw [parseNum_digit_head a _ ha, ← List.cons_append, ← hh,
          parseNumCore_frac false (natDigits (m.natAbs / 10 ^ e)) _
            (natDigits_digits _) hfrac_digits (natDigits_ne_nil _) hfracstrip,
          hval, hfraclen2, condInt_false]
        have hmm : (m.natAbs : Int) = m := by omega
        rw [hmm]

/-! ## Data model (`parser.py`: `AttributeType`, `Attribute`, `ArffData`)

Cell values model what a parsed pandas column stores per entry: the missing
state (NaN/NaT/None), an exact decimal number, a text value, a timestamp
(abstract), or an infinite float.  `DateModel` abstracts
`pandas.to_datetime` on one token and `strftime`/`isoformat` rendering. -/

inductive AttributeType
  | NUMERIC
  | REAL
  | INTEGER
  | STRING
  | NOMINAL
  | DATE
deriving DecidableEq

structure Attribute where
  name : Str
  type : AttributeType
  nominal_values : Option (List Str)
  date_format : Option Str
deriving DecidableEq

/-- `Attribute.is_numeric` from the source. -/
def Attribute.is_numeric (a : Attribute) : Bool :=
  a.type = AttributeType.NUMERIC || a.type = AttributeType.REAL
    || a.type = AttributeType.INTEGER

inductive CellValue
  | missing
  | num (m : Int) (e : Nat)
  | text (s : Str)
  | date (d : Int)
  | posInf
  | negInf
deriving DecidableEq

structure ArffData where
  relation_name : Str
  attributes : List Attribute
  data : List (List CellValue)
  comments : List Str
deriving DecidableEq

structure DateModel where
  parse : Option Str → Str → Option Int
  render : Option Str → Int → Str

inductive ParseErrKind
  | unknownDirective (dir : Str)
  | unclosedQuote
  | missingType
  | unknownAttrType (t : Str)
  | wrongNumValues (expected got : Nat)
  | invalidSparseFormat
  | sparseOutOfRange (idx : Int)
  | invalidSparseIndex (tok : Str)
  | missingRelation
  | missingAttributes
deriving DecidableEq

/-- `ArffParseError` / `MissingDataError`: the kind plus the line number and
line content the source attaches. -/
structure ParseErr where
  kind : ParseErrKind
  lineNumber : Option Nat
  lineContent : Option Str
deriving DecidableEq

deriving instance DecidableEq for Except

/-! ## Parser (`ArffParser`) -/

/-- `_clean_string`: strip, then the regex `^["'](.+)["']$` drops one
(possibly mismatched) surrounding quote pair; the middle must be nonempty. -/
def cleanString (s : Str) : Str :=
  let t := pstrip s
  if t.length ≥ 3 && isQuoteCh (t.headD ' ') && isQuoteCh (t.getLastD ' ') then
    (t.drop 1).dropLast
  else t

/-- `_clean_value`: strip; empty becomes the missing marker; a matching
surrounding quote pair (same character both ends, length ≥ 2) is stripped. -/
def cleanValue (marker : Str) (v : Str) : Str :=
  let t := pstrip v
  if t.isEmpty then marker
  else if t.length ≥ 2 && isQuoteCh (t.headD ' ') && t.headD ' ' == t.getLastD ' ' then
    (t.drop 1).dropLast
  else t

/-- Match `^key\s+(.+)$` case-insensitively against an already-stripped line
(the `_RELATION_PATTERN` / `_ATTRIBUTE_PATTERN` regexes), returning the
captured group. -/
def matchDirectiveArg (key : Str) (line : Str) : Option Str :=
  match line.drop key.length with
  | [] => none
  | c :: _ =>
      if lowerStr (line.take key.length) == key && wsp c then
        let arg := (line.drop key.length).dropWhile wsp
        if arg.isEmpty then none else some arg
      else none

/-- `_DATA_PATTERN` (`^@data\s*$`) on an already-stripped line. -/
def matchDataLine (line : Str) : Bool := lowerStr line == str "@data"

/-- The character loop of `_parse_nominal_values`: quote characters toggle
the in-quotes flag (and are dropped), commas outside quotes flush the
current token (trimmed, empties skipped, then `_clean_string`). -/
def parseNominalGo (values : List Str) (current : Str) (inQ : Bool)
    (qc : Option Char) : Str → List Str
  | [] =>
      let value := pstrip current
      if value.isEmpty then values else values ++ [cleanString value]
  | c :: rest =>
      if isQuoteCh c && !inQ then parseNominalGo values current true (some c) rest
      else if inQ && some c == qc then parseNominalGo values current false none rest
      else if c == ',' && !inQ then
        let value := pstrip current
        let values2 := if value.isEmpty then values else values ++ [cleanString value]
        parseNominalGo values2 [] inQ qc rest
      else parseNominalGo values (current ++ [c]) inQ qc rest

def parseNominalValues (s : Str) : List Str := parseNominalGo [] [] false none s

/-- Python `s.split(None, 1)`: the first whitespace-free token and the rest
with its leading whitespace run removed (empty when there is no rest). -/
def splitFirstWs (s : Str) : Str × Str :=
  (s.takeWhile (fun c => !wsp c), ((s.dropWhile (fun c => !wsp c)).dropWhile wsp))

/-- The type-token dispatch of `_parse_attribute` (`ad` is the stripped
attribute definition, carried for error reporting). -/
def parseAttrType (name typeDef : Str) (lineNumber : Nat) (ad : Str) :
    Except ParseErr Attribute :=
  let u := upperStr typeDef
  if u == str "NUMERIC" || u == str "REAL" then
    .ok ⟨name, .NUMERIC, none, none⟩
  else if u == str "INTEGER" then
    .ok ⟨name, .INTEGER, none, none⟩
  else if u == str "STRING" then
    .ok ⟨name, .STRING, none, none⟩
  else if u.take 4 == str "DATE" then
    let fmt := if 4 < typeDef.length
      then some (cleanString (pstrip (typeDef.drop 4))) else none
    .ok ⟨name, .DATE, none, fmt⟩
  else if typeDef.length ≥ 3 && typeDef.headD ' ' == '{'
      && typeDef.getLastD ' ' == '}' then
    .ok ⟨name, .NOMINAL, some (parseNominalValues ((typeDef.drop 1).dropLast)), none⟩
  else .error ⟨.unknownAttrType typeDef, some lineNumber, some ad⟩

/-- `_parse_attribute`: quoted or bare name, then the type token. -/
def parseAttribute (attrDef : Str) (lineNumber : Nat) : Except ParseErr Attribute :=
  let ad := pstrip attrDef
  if isQuoteCh (ad.headD ' ') then
    let qc := ad.headD ' '
    let name := (ad.drop 1).takeWhile (fun c => !(c == qc))
    match (ad.drop 1).dropWhile (fun c => !(c == qc)) with
    | [] => .error ⟨.unclosedQuote, some lineNumber, some ad⟩
    | _ :: after => parseAttrType name (pstrip after) lineNumber ad
  else
    let parts := splitFirstWs ad
    if parts.2.isEmpty then .error ⟨.missingType, some lineNumber, some ad⟩
    else parseAttrType parts.1 (pstrip parts.2) lineNumber ad

/-- The character loop of `_parse_data_row` (dense form): values split on
commas outside quotes, each token passed through `_clean_value`; quote
characters are kept in the token. -/
def splitDenseGo (marker : Str) (values : List Str) (current : Str)
    (inQ : Bool) (qc : Option Char) : Str → List Str
  | [] => values ++ [cleanValue marker current]
  | c :: rest =>
      if isQuoteCh c && !inQ then
        splitDenseGo marker values (current ++ [c]) true (some c) rest
      else if inQ && some c == qc then
        splitDenseGo marker values (current ++ [c]) false none rest
      else if c == ',' && !inQ then
        splitDenseGo marker (values ++ [cleanValue marker current]) [] inQ qc rest
      else splitDenseGo marker values (current ++ [c]) inQ qc rest

def splitDense (marker : Str) (line : Str) : List Str :=
  splitDenseGo marker [] [] false none line

/-- Python `int()` on a stripped token (sign and decimal digits; the
underscore grouping Python also accepts is not modelled). -/
def parseIntStr (s : Str) : Option Int :=
  let sg := splitSign s
  if allDigits sg.2 && !sg.2.isEmpty then some (condInt sg.1 (digitsVal sg.2)) else none

/-- One `index value` pair of `_parse_sparse_row`'s loop body. -/
def sparsePairStep (marker : Str) (numAttrs : Nat) (lineNumber : Nat) (line : Str)
    (values : List Str) (pair : Str) : Except ParseErr (List Str) :=
  let p := pstrip pair
  if p.isEmpty then .ok values
  else
    let parts := splitFirstWs p
    if parts.2.isEmpty then .error ⟨.invalidSparseFormat, some lineNumber, some line⟩
    else
      match parseIntStr parts.1 with
      | none => .error ⟨.invalidSparseIndex parts.1, some lineNumber, some line⟩
      | some idx =>
          if idx < 0 || (numAttrs : Int) ≤ idx then
            .error ⟨.sparseOutOfRange idx, some lineNumber, some line⟩
          else .ok (values.set idx.toNat (cleanValue marker parts.2))

def sparseFold (step : List Str → Str → Except ParseErr (List Str)) :
    List Str → List Str → Except ParseErr (List Str)
  | values, [] => .ok values
  | values, p :: ps =>
      match step values p with
      | .error e => .error e
      | .ok v => sparseFold step v ps

/-- `_parse_sparse_row`: all columns start at the missing marker; the body
is comma-split (not quote-aware) into pairs. -/
def parseSparseRow (marker : Str) (line : Str) (numAttrs : Nat) (lineNumber : Nat) :
    Except ParseErr (List Str) :=
  let values := List.replicate numAttrs marker
  let content := pstrip ((line.drop 1).dropLast)
  if content.isEmpty then .ok values
  else sparseFold (sparsePairStep marker numAttrs lineNumber line) values
    (content.splitOn ',')

/-- `_parse_data_row`: sparse when wrapped in braces, otherwise the dense
split with an exact field-count check. -/
def parseDataRow (marker : Str) (line : Str) (numAttrs : Nat) (lineNumber : Nat) :
    Except ParseErr (List Str) :=
  if line.headD ' ' == '{' && line.getLastD ' ' == '}' then
    parseSparseRow marker line numAttrs lineNumber
  else
    let values := splitDense marker line
    if values.length = numAttrs then .ok values
    else .error ⟨.wrongNumValues numAttrs values.length, some lineNumber, some line⟩

/-- The per-line state of `ArffParser.parse`. -/
structure ParseState where
  relation : Option Str
  attrs : List Attribute
  rows : List (List Str)
  comments : List Str
  inData : Bool
  lineNumber : Nat
deriving DecidableEq

def initState : ParseState := ⟨none, [], [], [], false, 0⟩

/-- One iteration of the line loop of `ArffParser.parse`. -/
def processLine (marker : Str) (st : ParseState) (raw : Str) : Except ParseErr ParseState :=
  let n := st.lineNumber + 1
  let st := { st with lineNumber := n }
  let line := pstrip raw
  if line.isEmpty then .ok st
  else if line.headD ' ' == '%' then
    .ok { st with comments := st.comments ++ [pstrip (line.drop 1)] }
  else if st.inData then
    match parseDataRow marker line st.attrs.length n with
    | .error e => .error e
    | .ok row => .ok { st with rows := st.rows ++ [row] }
  else if matchDataLine line then .ok { st with inData := true }
  else
    match matchDirectiveArg (str "@relation") line with
    | some arg => .ok { st with relation := some (cleanString arg) }
    | none =>
        match matchDirectiveArg (str "@attribute") line with
        | some arg =>
            match parseAttribute arg n with
            | .error e => .error e
            | .ok attr => .ok { st with attrs := st.attrs ++ [attr] }
        | none =>
            if line.headD ' ' == '@' then
              .error ⟨.unknownDirective (splitFirstWs line).1, some n, some line⟩
            else .ok st

def processLines (marker : Str) : ParseState → List Str → Except ParseErr ParseState
  | st, [] => .ok st
  | st, l :: ls =>
      match processLine marker st l with
      | .error e => .error e
      | .ok st2 => processLines marker st2 ls

/-! ## Column coercion (`_create_dataframe`) -/

/-- `df[col].replace(marker, nan)`: the missing marker becomes the missing
state, every other token stays. -/
def coerceTok (marker : Str) (tok : Str) : Option Str :=
  if tok == marker then none else some tok

def textCell (marker : Str) (tok : Str) : CellValue :=
  match coerceTok marker tok with
  | none => .missing
  | some t => .text t

/-- Whether `pandas.to_datetime` succeeds on a whole column: missing
entries pass through, every other token must parse. -/
def dateColOk (dm : DateModel) (fmt : Option Str) (marker : Str) (col : List Str) : Bool :=
  col.all (fun tok => tok == marker || (dm.parse fmt tok).isSome)

/-- Per-cell coercion of `_create_dataframe`, switching on the attribute
kind; `dateOk` is the column-global outcome of the date `try` block. -/
def coerceCell (dm : DateModel) (marker : Str) (a : Attribute) (dateOk : Bool)
    (tok : Str) : CellValue :=
  if a.is_numeric then
    match coerceTok marker tok with
    | none => .missing
    | some t =>
        match parseNum t with
        | some me => .num me.1 me.2
        | none => .missing
  else if a.type = AttributeType.NOMINAL then
    match a.nominal_values with
    | some vs =>
        if !vs.isEmpty then
          match coerceTok marker tok with
          | none => .missing
          | some t => if pstrip t ∈ vs then .text (pstrip t) else .missing
        else textCell marker tok
    | none => textCell marker tok
  else if a.type = AttributeType.DATE then
    if dateOk then
      match coerceTok marker tok with
      | none => .missing
      | some t =>
          match dm.parse a.date_format t with
          | some d => .date d
          | none => .missing
    else textCell marker tok
  else textCell marker tok

def colTokens (marker : Str) (rows : List (List Str)) (j : Nat) : List Str :=
  rows.map (fun r => r.getD j marker)

/-- Pair each attribute with its column-global date flag (column `j`). -/
def attrFlags (dm : DateModel) (marker : Str) (rows : List (List Str)) :
    List Attribute → Nat → List (Attribute × Bool)
  | [], _ => []
  | a :: as, j =>
      (a, if a.type = AttributeType.DATE
          then dateColOk dm a.date_format marker (colTokens marker rows j)
          else true)
        :: attrFlags dm marker rows as (j + 1)

/-- `_create_dataframe`: rows of tokens become rows of typed cells, each
column coerced per its attribute (rows in a parsed file all have exactly
one token per attribute, so the per-column operation is per-row `zipWith`). -/
def createDataFrame (dm : DateModel) (marker : Str)
    (rows : List (List Str)) (attrs : List Attribute) : List (List CellValue) :=
  rows.map (fun r =>
    List.zipWith (fun (p : Attribute × Bool) tok => coerceCell dm marker p.1 p.2 tok)
      (attrFlags dm marker rows attrs 0) r)

/-- `ArffParser.parse` over the list of input lines. -/
def parseLines (dm : DateModel) (marker : Str) (lines : List Str) :
    Except ParseErr ArffData :=
  match processLines marker initState lines with
  | .error e => .error e
  | .ok st =>
      match st.relation with
      | none => .error ⟨.missingRelation, none, none⟩
      | some rel =>
          if st.attrs.isEmpty then .error ⟨.missingAttributes, none, none⟩
          else .ok ⟨rel, st.attrs, createDataFrame dm marker st.rows st.attrs, st.comments⟩

/-! ## Writer (`ArffWriter`) -/

structure WriterCfg where
  missing : Str
  nominal_threshold : Option Nat
  string_quote : Char

def defaultWriterCfg : WriterCfg := ⟨str "?", none, '\''⟩

/-- The only untyped exception the formatting path can raise:
`int(value)` on an infinite float (`OverflowError`). -/
inductive WriteErr
  | overflow
deriving DecidableEq

/-- The trigger condition of `_quote_if_needed`. -/
def needsQuoting (q : Char) (s : Str) : Bool :=
  s.any (fun c => c == ' ' || c == ',' || c == '%' || c == '{' || c == '}'
    || c == q || c == '"')

/-- `value.replace(quote, "\\" + quote)`. -/
def escapeQuote (q : Char) (s : Str) : Str :=
  s.foldr (fun c acc => if c == q then '\\' :: c :: acc else c :: acc) []

/-- `_quote_if_needed`. -/
def quoteIfNeeded (q : Char) (s : Str) : Str :=
  if s.isEmpty then [q, q]
  else if needsQuoting q s then q :: (escapeQuote q s ++ [q])
  else s

/-- The name-quoting rule shared by `_write_relation` and
`_write_attribute`: quote (with a hard-coded single quote, no escaping)
exactly when the name contains a space, comma or percent sign. -/
def quoteNameIfNeeded (s : Str) : Str :=
  if s.any (fun c => c == ' ' || c == ',' || c == '%') then '\'' :: (s ++ ['\''])
  else s

/-- Python `str(value)` on a cell value. -/
def pyStr (dm : DateModel) : CellValue → Str
  | .missing => str "nan"
  | .num m e => renderNum m e
  | .text s => s
  | .date d => dm.render none d
  | .posInf => str "inf"
  | .negInf => str "-inf"

/-- `_format_value`. -/
def formatValue (dm : DateModel) (cfg : WriterCfg) (a : Attribute) (v : CellValue) :
    Except WriteErr Str :=
  if v = CellValue.missing then .ok cfg.missing
  else if a.is_numeric then
    match v with
    | .num m e => .ok (renderNum m e)
    | .posInf => .error .overflow
    | .negInf => .error .overflow
    | w => .ok (pyStr dm w)
  else if a.type = AttributeType.DATE then
    match v with
    | .date d =>
        match a.date_format with
        | some f => .ok ('\'' :: (dm.render (some f) d ++ ['\'']))
        | none => .ok ('\'' :: (dm.render none d ++ ['\'']))
    | w => .ok ('\'' :: (pyStr dm w ++ ['\'']))
  else .ok (quoteIfNeeded cfg.string_quote (pyStr dm v))

/-- Python truthiness of `attr.nominal_values`. -/
def nominalTruthy : Option (List Str) → Bool
  | some (_ :: _) => true
  | _ => false

/-- `_write_attribute` (one header line, without the newline). -/
def writeAttributeLine (cfg : WriterCfg) (a : Attribute) : Str :=
  let name := quoteNameIfNeeded a.name
  if a.type = AttributeType.NOMINAL && nominalTruthy a.nominal_values then
    str "@ATTRIBUTE " ++ name ++ (' ' :: '{' ::
      (joinSep (str ", ") ((a.nominal_values.getD []).map (quoteIfNeeded cfg.string_quote))
        ++ ['}']))
  else if a.type = AttributeType.DATE then
    match a.date_format with
    | some f => str "@ATTRIBUTE " ++ name ++ (str " DATE " ++ ('\'' :: (f ++ ['\''])))
    | none => str "@ATTRIBUTE " ++ name ++ str " DATE"
  else if a.type = AttributeType.STRING then str "@ATTRIBUTE " ++ name ++ str " STRING"
  else if a.type = AttributeType.INTEGER then str "@ATTRIBUTE " ++ name ++ str " INTEGER"
  else str "@ATTRIBUTE " ++ name ++ str " NUMERIC"

/-- `_write_relation` (the directive line; the blank line it also emits is
added by `writeArffData`). -/
def writeRelationLine (name : Str) : Str :=
  let n := if name.any (fun c => c == ' ' || c == ',' || c == '%')
    then '\'' :: (name ++ ['\'']) else name
  str "@RELATION " ++ n

def mapME {α β : Type} (f : α → Except WriteErr β) : List α → Except WriteErr (List β)
  | [] => .ok []
  | a :: as =>
      match f a with
      | .error e => .error e
      | .ok b =>
          match mapME f as with
          | .error e => .error e
          | .ok bs => .ok (b :: bs)

/-- One data line of `_write_data_rows` (values for the row's attributes,
comma-joined). -/
def writeRowLine (dm : DateModel) (cfg : WriterCfg) (attrs : List Attribute)
    (row : List CellValue) : Except WriteErr Str :=
  match mapME (fun (p : Attribute × CellValue) => formatValue dm cfg p.1 p.2)
      (attrs.zip row) with
  | .error e => .error e
  | .ok vals => .ok (joinSep [','] vals)

/-- `_write_arff_data`, as the list of output lines: comments (plus one
blank separator when present), the relation line and a blank, the attribute
lines, a blank, `@DATA`, then one line per row. -/
def writeArffData (dm : DateModel) (cfg : WriterCfg) (d : ArffData) :
    Except WriteErr (List Str) :=
  match mapME (writeRowLine dm cfg d.attributes) d.data with
  | .error e => .error e
  | .ok rowLines =>
      .ok ((d.comments.map (fun c => str "% " ++ c))
        ++ (if d.comments.isEmpty then [] else [[]])
        ++ [writeRelationLine d.relation_name, []]
        ++ d.attributes.map (writeAttributeLine cfg)
        ++ [[], str "@DATA"]
        ++ rowLines)

/-- A concrete date model for witnesses: a "date" is a plain digit string,
its timestamp the digits' value. -/
def simpleDateModel : DateModel :=
  ⟨fun _ s => if allDigits s && !s.isEmpty then some (digitsVal s : Int) else none,
   fun _ d => intRender d⟩

/-! ## Schema inference (`_infer_attributes`)

A pandas column is modelled by its dtype and (for object columns) its cell
values: NaN, a Python int, or a Python str. -/

inductive Dtype
  | categorical (cats : List Str)
  | datetime64
  | complexNum
  | boolDt
  | int64
  | float64
  | objectDt
deriving DecidableEq

inductive ObjCell
  | na
  | intO (n : Int)
  | strO (s : Str)
deriving DecidableEq

structure Column where
  name : Str
  dtype : Dtype
  values : List ObjCell
deriving DecidableEq

/-- `astype(str)` on an object cell. -/
def objStr : ObjCell → Str
  | .na => str "nan"
  | .intO n => intRender n
  | .strO s => s

def dropNa (vs : List ObjCell) : List ObjCell :=
  vs.filter (fun v => !(v == ObjCell.na))

/-- `Series.unique()`: distinct values in first-seen order. -/
def dedupFSGo (seen : List ObjCell) : List ObjCell → List ObjCell
  | [] => []
  | v :: vs => if v ∈ seen then dedupFSGo seen vs
      else v :: dedupFSGo (seen ++ [v]) vs

def dedupFS (l : List ObjCell) : List ObjCell := dedupFSGo [] l

/-- `Series.nunique()`: the number of distinct non-missing values. -/
def nunique (vs : List ObjCell) : Nat := (dedupFS (dropNa vs)).length

/-- Code-point lexicographic order of Python string comparison. -/
def strLt : Str → Str → Bool
  | [], [] => false
  | [], _ :: _ => true
  | _ :: _, [] => false
  | a :: as, b :: bs => if a < b then true else if b < a then false else strLt as bs

def insertSorted (x : Str) : List Str → List Str
  | [] => [x]
  | y :: ys => if strLt y x then y :: insertSorted x ys else x :: y :: ys

/-- Python `sorted` on a list of strings. -/
def sortStrs : List Str → List Str
  | [] => []
  | x :: xs => insertSorted x (sortStrs xs)

/-- `_infer_attributes` on one column, in the source's branch order:
categorical, datetime, complex, boolean, integer, other numeric, object
(nominal under the threshold, else string). -/
def inferAttribute (threshold : Option Nat) (col : Column) : Attribute :=
  match col.dtype with
  | .categorical cats => ⟨col.name, .NOMINAL, some cats, none⟩
  | .datetime64 => ⟨col.name, .DATE, none, some (str "%Y-%m-%d %H:%M:%S")⟩
  | .complexNum => ⟨col.name, .STRING, none, none⟩
  | .boolDt => ⟨col.name, .NOMINAL, some [str "False", str "True"], none⟩
  | .int64 => ⟨col.name, .INTEGER, none, none⟩
  | .float64 => ⟨col.name, .NUMERIC, none, none⟩
  | .objectDt =>
      match threshold with
      | some t =>
          if nunique col.values ≤ t then
            ⟨col.name, .NOMINAL,
             some (sortStrs ((dedupFS (dropNa col.values)).map objStr)), none⟩
          else ⟨col.name, .STRING, none, none⟩
      | none => ⟨col.name, .STRING, none, none⟩

def inferAttributes (threshold : Option Nat) (cols : List Column) : List Attribute :=
  cols.map (inferAttribute threshold)

/-! ## Serialization-safety

`safeDataset` collects the conditions under which write-then-parse is the
identity (each forced by a concrete failure of the unrestricted claim):
text avoiding the quote characters and the backslash-escape the parser
never undoes, no newlines, no token equal to the missing marker, nominal
cells drawn from their declared domain, and canonical decimal numerics. -/

def noNL (s : Str) : Bool := s.all (fun c => !(c == '\n') && !(c == '\r'))

/-- Stripping changes nothing: empty, or non-whitespace at both ends. -/
def trimInv (s : Str) : Bool :=
  s.isEmpty || (!(wsp (s.headD ' ')) && !(wsp (s.getLastD ' ')))

def needsNameQuote (s : Str) : Bool :=
  s.any (fun c => c == ' ' || c == ',' || c == '%')

def quoteWrapped (s : Str) : Bool :=
  s.length ≥ 3 && isQuoteCh (s.headD ' ') && isQuoteCh (s.getLastD ' ')

def onlySpaceWs (s : Str) : Bool := s.all (fun c => !(wsp c) || c == ' ')

def safeRelName (s : Str) : Bool :=
  !s.isEmpty && noNL s && onlySpaceWs s && (needsNameQuote s || !(quoteWrapped s))

def safeAttrName (s : Str) : Bool :=
  !s.isEmpty && noNL s && onlySpaceWs s
    && (if needsNameQuote s then !(s.contains '\'')
        else !(isQuoteCh (s.headD ' ')))

def safeNominalVal (v : Str) : Bool :=
  !v.isEmpty && noNL v && trimInv v && !(v.contains '\'') && !(v.contains '"')
    && !(v == str "?")

def safeTextCell (s : Str) : Bool :=
  noNL s && !(s.contains '\'')
    && (needsQuoting '\'' s || s.isEmpty || (trimInv s && !(s == str "?")))

def safeCellFor (a : Attribute) (v : CellValue) : Bool :=
  if a.is_numeric then
    match v with
    | .num m e => canonDec m e
    | _ => false
  else if a.type = AttributeType.NOMINAL then
    match v with
    | .text s => s ∈ a.nominal_values.getD []
    | _ => false
  else
    match v with
    | .text s => safeTextCell s
    | _ => false

def safeAttr (a : Attribute) : Bool :=
  safeAttrName a.name &&
    match a.type with
    | .NUMERIC => a.nominal_values == none && a.date_format == none
    | .INTEGER => a.nominal_values == none && a.date_format == none
    | .STRING => a.nominal_values == none && a.date_format == none
    | .NOMINAL =>
        a.date_format == none &&
          match a.nominal_values with
          | some vs => !vs.isEmpty && vs.all safeNominalVal && vs.Nodup
          | none => false
    | .REAL => false
    | .DATE => false

def safeDataset (d : ArffData) : Bool :=
  safeRelName d.relation_name
    && !d.attributes.isEmpty
    && d.attributes.all safeAttr
    && (d.attributes.map (fun a => a.name)).Nodup
    && d.comments.all (fun c => trimInv c && noNL c)
    && d.data.all (fun r => r.length == d.attributes.length
        && (d.attributes.zip r).all (fun p => safeCellFor p.1 p.2))

/-- The serialized form of one safe cell (what `_format_value` returns). -/
def serCell (a : Attribute) (v : CellValue) : Str :=
  if a.is_numeric then
    match v with
    | .num m e => renderNum m e
    | _ => []
  else
    match v with
    | .text s => quoteIfNeeded '\'' s
    | _ => []

/-- The cleaned token a safe cell comes back as from the dense split. -/
def rawTok (a : Attribute) (v : CellValue) : Str :=
  if a.is_numeric then
    match v with
    | .num m e => renderNum m e
    | _ => []
  else
    match v with
    | .text s => s
    | _ => []

/-! ## String utility lemmas -/

theorem dropWhile_cons_of_neg (p : Char → Bool) (a : Char) (l : Str) (h : p a = false) :
    (a :: l).dropWhile p = a :: l := by
  simp [List.dropWhile, h]

theorem pstrip_nil : pstrip [] = [] := rfl

theorem pstrip_eq_self (s : Str) (h : trimInv s = true) : pstrip s = s := by
  cases s with
  | nil => rfl
  | cons a l =>
    simp only [trimInv, List.isEmpty_cons, Bool.false_or, Bool.and_eq_true,
      Bool.not_eq_true', List.headD_cons] at h
    obtain ⟨h1, h2⟩ := h
    unfold pstrip
    rw [dropWhile_cons_of_neg _ _ _ h1]
    cases hr : (a :: l).reverse with
    | nil => simp at hr
    | cons b r =>
      have hb : b = (a :: l).getLastD ' ' := by
        have := List.head?_reverse (a :: l)
        rw [hr] at this
        rw [List.getLastD_eq_getLast?, ← this]
        rfl
      rw [dropWhile_cons_of_neg _ _ _ (by rw [hb]; exact h2), ← hr,
        List.reverse_reverse]

theorem trimInv_of_ends (s : Str) (h1 : wsp (s.headD ' ') = false)
    (h2 : wsp (s.getLastD ' ') = false) : trimInv s = true := by
  cases s with
  | nil => rfl
  | cons a l =>
    simp only [trimInv, List.isEmpty_cons, Bool.false_or, Bool.and_eq_true,
      Bool.not_eq_true']
    exact ⟨h1, h2⟩

theorem headD_append_left (p x : Str) (d : Char) (h : p ≠ []) :
    (p ++ x).headD d = p.headD d := by
  cases p with
  | nil => exact absurd rfl h
  | cons a l => rfl

theorem getLastD_append_right (x p : Str) (d : Char) (h : p ≠ []) :
    (x ++ p).getLastD d = p.getLastD d := by
  cases hp : p.reverse with
  | nil => simp at hp; exact absurd hp h
  | cons b r =>
    have hb : p = (b :: r).reverse := by rw [← hp, List.reverse_reverse]
    rw [hb]
    simp only [List.reverse_cons]
    rw [← List.append_assoc]
    rw [List.getLastD_eq_getLast?, List.getLastD_eq_getLast?,
      List.getLast?_concat, List.getLast?_concat]

theorem getLastD_concat2 (l : Str) (c d : Char) : (l ++ [c]).getLastD d = c := by
  rw [List.getLastD_eq_getLast?, List.getLast?_concat]
  rfl

theorem joinSep_head (sep : Str) (p : Str) (ps : List Str) (d : Char) (h : p ≠ []) :
    (joinSep sep (p :: ps)).headD d = p.headD d := by
  cases ps with
  | nil => rfl
  | cons q qs =>
    rw [joinSep]
    rw [List.append_assoc]
    exact headD_append_left p _ d h

theorem joinSep_ne_nil (sep : Str) (p : Str) (ps : List Str) (hp : p ≠ []) :
    joinSep sep (p :: ps) ≠ [] := by
  cases ps with
  | nil => exact hp
  | cons q qs =>
    rw [joinSep, List.append_assoc]
    intro hc
    exact hp (List.append_eq_nil.mp hc).1

theorem joinSep_getLast_mem (sep : Str) :
    ∀ (ps : List Str) (p : Str) (d : Char), p ≠ [] → (∀ x ∈ ps, x ≠ []) →
      ∃ x, x ∈ p :: ps ∧ (joinSep sep (p :: ps)).getLastD d = x.getLastD d := by
  intro ps
  induction ps with
  | nil =>
    intro p d hp _
    exact ⟨p, List.mem_cons_self p [], rfl⟩
  | cons q qs ih =>
    intro p d hp hall
    have hq : q ≠ [] := hall q (List.mem_cons_self q qs)
    obtain ⟨x, hx, heq⟩ := ih q d hq (fun y hy => hall y (List.mem_cons_of_mem q hy))
    refine ⟨x, List.mem_cons_of_mem p hx, ?_⟩
    rw [joinSep, List.append_assoc,
      getLastD_append_right _ _ _ (by
        intro hc
        rcases List.append_eq_nil.mp hc with ⟨_, hc2⟩
        exact joinSep_ne_nil sep q qs hq hc2),
      getLastD_append_right _ _ _ (joinSep_ne_nil sep q qs hq)]
    exact heq

/-! ## Dense-split lemmas -/

/-- A well-formed serialized cell: either a quoted token whose interior has
no quote character, or a token free of quotes and commas. -/
def WFPiece (p : Str) : Prop :=
  (∃ mid, p = '\'' :: (mid ++ ['\'']) ∧ '\'' ∉ mid)
    ∨ (∀ c ∈ p, isQuoteCh c = false ∧ c ≠ ',')

theorem splitDenseGo_nil (m : Str) (values : List Str) (cur : Str) (inQ : Bool)
    (qc : Option Char) : splitDenseGo m values cur inQ qc [] = values ++ [cleanValue m cur] :=
  rfl

theorem splitDenseGo_plain (m : Str) (p : Str)
    (h : ∀ c ∈ p, isQuoteCh c = false ∧ c ≠ ',') :
    ∀ rest values cur, splitDenseGo m values cur false none (p ++ rest)
      = splitDenseGo m values (cur ++ p) false none rest := by
  induction p with
  | nil => intro rest values cur; simp
  | cons c cs ih =>
    intro rest values cur
    have hc := h c (List.mem_cons_self c cs)
    have ih2 := ih (fun x hx => h x (List.mem_cons_of_mem c hx))
    rw [List.cons_append, splitDenseGo]
    simp only [hc.1, Bool.false_and, Bool.and_false, if_false, Bool.not_false,
      Bool.and_true, Bool.false_eq_true]
    rw [if_neg (by simp [hc.2]), ih2]
    simp

theorem splitDenseGo_quoted_mid (m : Str) (p : Str) (h : '\'' ∉ p) :
    ∀ rest values cur, splitDenseGo m values cur true (some '\'') (p ++ rest)
      = splitDenseGo m values (cur ++ p) true (some '\'') rest := by
  induction p with
  | nil => intro rest values cur; simp
  | cons c cs ih =>
    intro rest values cur
    have hc : c ≠ '\'' := by
      intro he; subst he; exact h (List.mem_cons_self _ _)
    have ih2 := ih (fun hx => h (List.mem_cons_of_mem c hx))
    rw [List.cons_append, splitDenseGo]
    rw [if_neg (by simp), if_neg (by simp [hc]), if_neg (by simp), ih2]
    simp

theorem splitDenseGo_open (m : Str) (rest : Str) (values : List Str) (cur : Str) :
    splitDenseGo m values cur false none ('\'' :: rest)
      = splitDenseGo m values (cur ++ ['\'']) true (some '\'') rest := by
  rw [splitDenseGo]
  rw [if_pos (by simp [isQuoteCh])]

theorem splitDenseGo_close (m : Str) (rest : Str) (values : List Str) (cur : Str) :
    splitDenseGo m values cur true (some '\'') ('\'' :: rest)
      = splitDenseGo m values (cur ++ ['\'']) false none rest := by
  rw [splitDenseGo]
  rw [if_neg (by simp), if_pos (by simp)]

theorem splitDenseGo_comma (m : Str) (rest : Str) (values : List Str) (cur : Str) :
    splitDenseGo m values cur false none (',' :: rest)
      = splitDenseGo m (values ++ [cleanValue m cur]) [] false none rest := by
  rw [splitDenseGo]
  rw [if_neg (by simp [isQuoteCh]), if_neg (by simp), if_pos (by simp)]

theorem splitDenseGo_piece (m : Str) (p : Str) (h : WFPiece p) :
    ∀ rest values cur, splitDenseGo m values cur false none (p ++ rest)
      = splitDenseGo m values (cur ++ p) false none rest := by
  rcases h with ⟨mid, hp, hmid⟩ | hplain
  · intro rest values cur
    subst hp
    rw [List.cons_append, splitDenseGo_open]
    have : (mid ++ ['\'']) ++ rest = mid ++ ('\'' :: rest) := by simp
    rw [this, splitDenseGo_quoted_mid m mid hmid, splitDenseGo_close]
    simp
  · exact splitDenseGo_plain m p hplain

theorem splitDense_join (m : Str) :
    ∀ (ps : List Str) (values : List Str), ps ≠ [] → (∀ p ∈ ps, WFPiece p) →
      splitDenseGo m values [] false none (joinSep [','] ps)
        = values ++ ps.map (cleanValue m) := by
  intro ps
  induction ps with
  | nil => intro values h _; exact absurd rfl h
  | cons p qs ih =>
    intro values _ hall
    have hp := hall p (List.mem_cons_self p qs)
    cases qs with
    | nil =>
      show splitDenseGo m values [] false none (joinSep [','] [p]) = _
      rw [joinSep]
      have : p = p ++ [] := by simp
      rw [this, splitDenseGo_piece m p hp [] values []]
      simp [splitDenseGo_nil]
    | cons q qs2 =>
      rw [joinSep, List.append_assoc, splitDenseGo_piece m p hp _ values []]
      rw [List.nil_append, show ([','] ++ joinSep [','] (q :: qs2))
        = ',' :: joinSep [','] (q :: qs2) from rfl]
      rw [splitDenseGo_comma]
      rw [ih (values ++ [cleanValue m p]) (by simp)
        (fun x hx => hall x (List.mem_cons_of_mem p hx))]
      simp

/-! ## Per-cell round-trip lemmas -/

theorem not_mem_of_contains_false (c : Char) (s : Str) (h : s.contains c = false) :
    c ∉ s := by
  rw [List.contains_eq_any_beq] at h
  simp only [List.any_eq_false, beq_iff_eq] at h
  intro hc
  exact h c hc rfl

theorem headD_mem (l : Str) (d : Char) (h : l ≠ []) : l.headD d ∈ l := by
  cases l with
  | nil => exact absurd rfl h
  | cons a r => exact List.mem_cons_self a r

theorem getLastD_mem (l : Str) (d : Char) (h : l ≠ []) : l.getLastD d ∈ l := by
  cases hr : l.reverse with
  | nil => simp at hr; exact absurd hr h
  | cons b r =>
    have hb : l = (b :: r).reverse := by rw [← hr, List.reverse_reverse]
    rw [hb, List.reverse_cons, getLastD_concat2]
    simp

theorem renderNum_chars (m : Int) (e : Nat) :
    ∀ c ∈ renderNum m e, c.isDigit = true ∨ c = '-' ∨ c = '.' := by
  intro c hc
  rw [renderNum] at hc
  by_cases he : e = 0
  · rw [if_pos he, intRender] at hc
    split at hc
    · rcases List.mem_cons.mp hc with h | h
      · exact Or.inr (Or.inl h)
      · exact Or.inl (natDigits_digits _ c h)
    · exact Or.inl (natDigits_digits _ c hc)
  · rw [if_neg he] at hc
    simp only [List.mem_append, List.mem_cons] at hc
    rcases hc with (h | h) | h | h
    · split at h
      · simp only [List.mem_singleton] at h
        exact Or.inr (Or.inl h)
      · simp at h
    · exact Or.inl (natDigits_digits _ c h)
    · exact Or.inr (Or.inr h)
    · rcases h with h1 | h1
      · rw [List.eq_of_mem_replicate h1]
        exact Or.inl (by decide)
      · exact Or.inl (natDigits_digits _ c h1)

theorem renderNum_ne_nil (m : Int) (e : Nat) : renderNum m e ≠ [] := by
  rw [renderNum]
  by_cases he : e = 0
  · rw [if_pos he, intRender]
    split
    · simp
    · exact natDigits_ne_nil _
  · rw [if_neg he]
    intro hc
    rcases List.append_eq_nil.mp hc with ⟨h1, _⟩
    rcases List.append_eq_nil.mp h1 with ⟨_, h3⟩
    exact natDigits_ne_nil _ h3

theorem renderChar_flat (c : Char) (h : c.isDigit = true ∨ c = '-' ∨ c = '.') :
    wsp c = false ∧ isQuoteCh c = false ∧ (c == ',') = false ∧ (c == '{') = false
      ∧ (c == '%') = false := by
  rcases h with h | h | h
  · refine ⟨?_, ?_, ?_, ?_, ?_⟩
    · have h1 : c ≠ ' ' := fun he => by subst he; simp [Char.isDigit] at h
      have h2 : c ≠ '\t' := fun he => by subst he; simp [Char.isDigit] at h
      have h3 : c ≠ '\n' := fun he => by subst he; simp [Char.isDigit] at h
      have h4 : c ≠ '\r' := fun he => by subst he; simp [Char.isDigit] at h
      simp [wsp, h1, h2, h3, h4]
    · have h1 : c ≠ '\'' := fun he => by subst he; simp [Char.isDigit] at h
      have h2 : c ≠ '"' := fun he => by subst he; simp [Char.isDigit] at h
      simp [isQuoteCh, h1, h2]
    · have h1 : c ≠ ',' := fun he => by subst he; simp [Char.isDigit] at h
      simp [h1]
    · have h1 : c ≠ '{' := fun he => by subst he; simp [Char.isDigit] at h
      simp [h1]
    · have h1 : c ≠ '%' := fun he => by subst he; simp [Char.isDigit] at h
      simp [h1]
  · subst h; refine ⟨by decide, by decide, by decide, by decide, by decide⟩
  · subst h; refine ⟨by decide, by decide, by decide, by decide, by decide⟩

theorem renderNum_cleanValue (m : Int) (e : Nat) :
    cleanValue (str "?") (renderNum m e) = renderNum m e := by
  have hne := renderNum_ne_nil m e
  have hhead := renderChar_flat _ (renderNum_chars m e _ (headD_mem _ ' ' hne))
  have hlast := renderChar_flat _ (renderNum_chars m e _ (getLastD_mem _ ' ' hne))
  have hemp : (renderNum m e).isEmpty = false := by
    cases hh : renderNum m e with
    | nil => exact absurd hh hne
    | cons a l => rfl
  rw [cleanValue]
  rw [pstrip_eq_self _ (trimInv_of_ends _ hhead.1 hlast.1)]
  rw [if_neg (by rw [hemp]; exact Bool.false_ne_true)]
  have hq := hhead.2.1
  rw [if_neg (by rw [hq]; simp)]

theorem escapeQuote_id (q : Char) (s : Str) (h : q ∉ s) : escapeQuote q s = s := by
  induction s with
  | nil => rfl
  | cons c cs ih =>
    have hc : c ≠ q := fun he => h (he ▸ List.mem_cons_self c cs)
    rw [escapeQuote] at *
    simp only [List.foldr_cons]
    rw [if_neg (by simp [hc])]
    rw [ih (fun hx => h (List.mem_cons_of_mem c hx))]

theorem safeAttr_type (a : Attribute) (h : safeAttr a = true) :
    a.type = AttributeType.NUMERIC ∨ a.type = AttributeType.INTEGER
      ∨ a.type = AttributeType.STRING ∨ a.type = AttributeType.NOMINAL := by
  rw [safeAttr] at h
  cases ht : a.type <;> rw [ht] at h <;> simp_all

theorem safeAttr_name (a : Attribute) (h : safeAttr a = true) :
    safeAttrName a.name = true := by
  rw [safeAttr, Bool.and_eq_true] at h
  exact h.1

theorem safeAttr_nominal (a : Attribute) (h : safeAttr a = true)
    (ht : a.type = AttributeType.NOMINAL) :
    ∃ vs, a.nominal_values = some vs ∧ vs ≠ []
      ∧ (∀ v ∈ vs, safeNominalVal v = true) ∧ a.date_format = none := by
  rw [safeAttr, ht] at h
  simp only [Bool.and_eq_true] at h
  obtain ⟨_, hfmt, hvals⟩ := h
  cases hv : a.nominal_values with
  | none => rw [hv] at hvals; simp at hvals
  | some vs =>
    rw [hv] at hvals
    simp only [Bool.and_eq_true, List.all_eq_true, Bool.not_eq_true'] at hvals
    refine ⟨vs, rfl, ?_, fun v hvmem => hvals.1.2 v hvmem, by simpa using hfmt⟩
    intro hc
    subst hc
    have := hvals.1.1
    simp [List.isEmpty] at this

theorem safeAttr_plain (a : Attribute) (h : safeAttr a = true)
    (ht : a.type ≠ AttributeType.NOMINAL) :
    a.nominal_values = none ∧ a.date_format = none := by
  rw [safeAttr] at h
  cases hty : a.type <;> rw [hty] at h <;> simp_all

theorem is_numeric_of_type (a : Attribute)
    (h : a.type = AttributeType.NUMERIC ∨ a.type = AttributeType.REAL
      ∨ a.type = AttributeType.INTEGER) : a.is_numeric = true := by
  rw [Attribute.is_numeric]
  rcases h with h | h | h <;> rw [h] <;> simp

theorem not_numeric_of_type (a : Attribute)
    (h : a.type = AttributeType.STRING ∨ a.type = AttributeType.NOMINAL
      ∨ a.type = AttributeType.DATE) : a.is_numeric = false := by
  rw [Attribute.is_numeric]
  rcases h with h | h | h <;> rw [h] <;> simp

theorem safeNominalVal_facts (v : Str) (h : safeNominalVal v = true) :
    v ≠ [] ∧ noNL v = true ∧ trimInv v = true ∧ '\'' ∉ v ∧ '"' ∉ v ∧ v ≠ str "?" := by
  rw [safeNominalVal] at h
  simp only [Bool.and_eq_true, Bool.not_eq_true'] at h
  obtain ⟨⟨⟨⟨⟨h1, h2⟩, h3⟩, h4⟩, h5⟩, h6⟩ := h
  refine ⟨?_, h2, h3, not_mem_of_contains_false _ _ h4, not_mem_of_contains_false _ _ h5, ?_⟩
  · intro hc; subst hc; simp [List.isEmpty] at h1
  · intro hc; subst hc; simp at h6

theorem safeTextCell_facts (s : Str) (h : safeTextCell s = true) :
    noNL s = true ∧ '\'' ∉ s
      ∧ (needsQuoting '\'' s = true ∨ s = []
          ∨ (trimInv s = true ∧ s ≠ str "?")) := by
  rw [safeTextCell] at h
  rw [Bool.and_eq_true, Bool.and_eq_true] at h
  obtain ⟨⟨h1, h2⟩, h3⟩ := h
  rw [Bool.or_eq_true, Bool.or_eq_true] at h3
  refine ⟨h1, not_mem_of_contains_false _ _ (by simpa using h2), ?_⟩
  rcases h3 with (h3 | h3) | h3
  · exact Or.inl h3
  · refine Or.inr (Or.inl ?_)
    cases s with
    | nil => rfl
    | cons a l => simp [List.isEmpty] at h3
  · rw [Bool.and_eq_true] at h3
    refine Or.inr (Or.inr ⟨h3.1, ?_⟩)
    intro hc
    subst hc
    simp at h3

theorem needsQuoting_false_facts (q : Char) (s : Str) (h : needsQuoting q s = false) :
    ∀ c ∈ s, c ≠ ' ' ∧ c ≠ ',' ∧ c ≠ '%' ∧ c ≠ '{' ∧ c ≠ '}' ∧ c ≠ q ∧ c ≠ '"' := by
  rw [needsQuoting] at h
  simp only [List.any_eq_false] at h
  intro c hc
  have h2 := h c hc
  simp only [Bool.or_eq_true, beq_iff_eq, not_or] at h2
  tauto

theorem quoteIfNeeded_wf (s : Str) (h : '\'' ∉ s) : WFPiece (quoteIfNeeded '\'' s) := by
  rw [quoteIfNeeded]
  by_cases hemp : s.isEmpty = true
  · rw [if_pos hemp]
    exact Or.inl ⟨[], rfl, by simp⟩
  · rw [if_neg hemp]
    by_cases hq : needsQuoting '\'' s = true
    · rw [if_pos hq]
      exact Or.inl ⟨s, by rw [escapeQuote_id _ _ h], h⟩
    · rw [if_neg hq]
      refine Or.inr (fun c hc => ?_)
      have hf := needsQuoting_false_facts '\'' s (Bool.not_eq_true _ ▸ hq) c hc
      exact ⟨by simp [isQuoteCh, hf.2.2.2.2.2.1, hf.2.2.2.2.2.2], hf.2.1⟩

theorem safeCellFor_num (a : Attribute) (m : Int) (e : Nat)
    (hsafe : safeCellFor a (CellValue.num m e) = true) :
    a.is_numeric = true ∧ canonDec m e = true := by
  rw [safeCellFor] at hsafe
  by_cases hn : a.is_numeric = true
  · rw [if_pos hn] at hsafe
    exact ⟨hn, hsafe⟩
  · rw [if_neg hn] at hsafe
    split at hsafe <;> simp at hsafe

theorem safeCellFor_text (a : Attribute) (s : Str)
    (hsafe : safeCellFor a (CellValue.text s) = true) :
    a.is_numeric = false := by
  by_cases hn : a.is_numeric = true
  · rw [safeCellFor, if_pos hn] at hsafe
    simp at hsafe
  · simpa using hn

theorem safeCellFor_shape (a : Attribute) (v : CellValue)
    (hsafe : safeCellFor a v = true) :
    (∃ m e, v = CellValue.num m e) ∨ (∃ s, v = CellValue.text s) := by
  cases v with
  | num m e => exact Or.inl ⟨m, e, rfl⟩
  | text s => exact Or.inr ⟨s, rfl⟩
  | missing => simp [safeCellFor] at hsafe
  | date d => simp [safeCellFor] at hsafe
  | posInf => simp [safeCellFor] at hsafe
  | negInf => simp [safeCellFor] at hsafe

/-- For a safe text cell, the quote character never occurs in the text. -/
theorem safeCellFor_text_noquote (a : Attribute) (s : Str)
    (hattr : safeAttr a = true) (hsafe : safeCellFor a (CellValue.text s) = true) :
    '\'' ∉ s
      ∧ (needsQuoting '\'' s = true ∨ s = []
          ∨ (trimInv s = true ∧ s ≠ str "?")) := by
  have hn := safeCellFor_text a s hsafe
  rw [safeCellFor, if_neg (by rw [hn]; exact Bool.false_ne_true)] at hsafe
  by_cases ht : a.type = AttributeType.NOMINAL
  · rw [if_pos ht] at hsafe
    obtain ⟨vs, hvs, _, hall, _⟩ := safeAttr_nominal a hattr ht
    rw [hvs] at hsafe
    simp only [Option.getD_some] at hsafe
    have hf := safeNominalVal_facts s (hall s (by simpa using hsafe))
    refine ⟨hf.2.2.2.1, ?_⟩
    by_cases hnq : needsQuoting '\'' s = true
    · exact Or.inl hnq
    · exact Or.inr (Or.inr ⟨hf.2.2.1, hf.2.2.2.2.2⟩)
  · rw [if_neg ht] at hsafe
    have hf := safeTextCell_facts s hsafe
    exact ⟨hf.2.1, hf.2.2⟩

/-- Cleaning the serialized form of a safe cell yields its raw token. -/
theorem cleanValue_serCell (a : Attribute) (v : CellValue)
    (hattr : safeAttr a = true) (hsafe : safeCellFor a v = true) :
    cleanValue (str "?") (serCell a v) = rawTok a v := by
  rcases safeCellFor_shape a v hsafe with ⟨m, e, hv⟩ | ⟨s, hv⟩
  · subst hv
    have hn := (safeCellFor_num a m e hsafe).1
    rw [serCell, rawTok, if_pos hn]
    exact renderNum_cleanValue m e
  · subst hv
    have hn := safeCellFor_text a s hsafe
    have hnum : ¬ (a.is_numeric = true) := by rw [hn]; exact Bool.false_ne_true
    rw [serCell, rawTok, if_neg hnum, if_neg hnum]
    obtain ⟨hnoq, hsafe2⟩ := safeCellFor_text_noquote a s hattr hsafe
    rw [quoteIfNeeded]
    by_cases hemp : s.isEmpty = true
    · have hsnil : s = [] := by
        cases s with
        | nil => rfl
        | cons a l => simp at hemp
      subst hsnil
      decide
    · rw [if_neg hemp]
      by_cases hq : needsQuoting '\'' s = true
      · rw [if_pos hq, escapeQuote_id _ _ hnoq]
        rw [cleanValue]
        have hlast2 : ('\'' :: (s ++ ['\''])).getLastD ' ' = '\'' := by
          rw [show '\'' :: (s ++ ['\'']) = ('\'' :: s) ++ ['\''] from by simp,
            getLastD_concat2]
        have hps : pstrip ('\'' :: (s ++ ['\''])) = '\'' :: (s ++ ['\'']) := by
          apply pstrip_eq_self
          apply trimInv_of_ends
          · rw [List.headD_cons]
            decide
          · rw [hlast2]
            decide
        rw [hps]
        rw [if_neg (by simp), if_pos (by
          simp only [List.headD_cons, hlast2, isQuoteCh, List.length_cons,
            List.length_append, List.length_singleton]
          simp)]
        simp
      · rw [if_neg hq]
        have hs3 : trimInv s = true ∧ s ≠ str "?" := by
          rcases hsafe2 with h3 | h3 | h3
          · exact absurd h3 hq
          · exact absurd (by rw [h3]; rfl) hemp
          · exact h3
        rw [cleanValue, pstrip_eq_self _ hs3.1]
        have hemp2 : s.isEmpty = false := by simpa using hemp
        rw [if_neg (by rw [hemp2]; exact Bool.false_ne_true)]
        have hfacts := needsQuoting_false_facts '\'' s (by simpa using hq)
        have hne : s ≠ [] := by
          intro hc; rw [hc] at hemp2; simp [List.isEmpty] at hemp2
        have hhq : isQuoteCh (s.headD ' ') = false := by
          have hmem := hfacts (s.headD ' ') (headD_mem s ' ' hne)
          simp only [isQuoteCh, Bool.or_eq_false_iff, decide_eq_false_iff_not]
          exact ⟨hmem.2.2.2.2.2.1, hmem.2.2.2.2.2.2⟩
        rw [if_neg (by rw [hhq]; simp)]

theorem type_string_of (a : Attribute) (hattr : safeAttr a = true)
    (hn : a.is_numeric = false) (ht : a.type ≠ AttributeType.NOMINAL) :
    a.type = AttributeType.STRING := by
  rcases safeAttr_type a hattr with h | h | h | h
  · exact absurd (is_numeric_of_type a (Or.inl h)) (by rw [hn]; simp)
  · exact absurd (is_numeric_of_type a (Or.inr (Or.inr h))) (by rw [hn]; simp)
  · exact h
  · exact absurd h ht

theorem text_ne_marker (s : Str) (hsafe2 : needsQuoting '\'' s = true ∨ s = []
    ∨ (trimInv s = true ∧ s ≠ str "?")) : s ≠ str "?" := by
  rcases hsafe2 with h | h | h
  · intro hc
    subst hc
    have : needsQuoting '\'' (str "?") = false := by decide
    rw [this] at h
    exact Bool.false_ne_true h
  · intro hc
    rw [h] at hc
    exact List.noConfusion hc.symm
  · exact h.2

/-- Coercing the raw token of a safe cell restores the cell. -/
theorem coerceCell_rawTok (dm : DateModel) (a : Attribute) (v : CellValue) (flag : Bool)
    (hattr : safeAttr a = true) (hsafe : safeCellFor a v = true) :
    coerceCell dm (str "?") a flag (rawTok a v) = v := by
  rcases safeCellFor_shape a v hsafe with ⟨m, e, hv⟩ | ⟨s, hv⟩
  · subst hv
    obtain ⟨hn, hcanon⟩ := safeCellFor_num a m e hsafe
    rw [rawTok, if_pos hn, coerceCell, if_pos hn]
    have hne : renderNum m e ≠ str "?" := by
      intro hc
      have hp := parseNum_renderNum m e hcanon
      rw [hc] at hp
      have h2 : parseNum (str "?") = none := by decide
      rw [h2] at hp
      exact Option.noConfusion hp
    rw [coerceTok, if_neg (by simp [hne])]
    show (match parseNum (renderNum m e) with
      | some me => CellValue.num me.1 me.2
      | none => CellValue.missing) = CellValue.num m e
    rw [parseNum_renderNum m e hcanon]
  · subst hv
    have hn := safeCellFor_text a s hsafe
    have hnum : ¬ (a.is_numeric = true) := by rw [hn]; exact Bool.false_ne_true
    rw [rawTok, if_neg hnum, coerceCell, if_neg hnum]
    rw [safeCellFor, if_neg hnum] at hsafe
    by_cases ht : a.type = AttributeType.NOMINAL
    · rw [if_pos ht] at hsafe ⊢
      obtain ⟨vs, hvs, hvne, hall, _⟩ := safeAttr_nominal a hattr ht
      rw [hvs] at hsafe ⊢
      simp only [Option.getD_some] at hsafe
      have hmem : s ∈ vs := by simpa using hsafe
      have hf := safeNominalVal_facts s (hall s hmem)
      have hvse : vs.isEmpty = false := by
        cases vs with
        | nil => exact absurd rfl hvne
        | cons a l => rfl
      show (if (!vs.isEmpty) = true then
          match coerceTok (str "?") s with
          | none => CellValue.missing
          | some t => if pstrip t ∈ vs then CellValue.text (pstrip t)
              else CellValue.missing
        else textCell (str "?") s) = CellValue.text s
      rw [if_pos (show (!vs.isEmpty) = true by rw [hvse]; rfl)]
      rw [coerceTok, if_neg (by simp [hf.2.2.2.2.2])]
      show (if pstrip s ∈ vs then CellValue.text (pstrip s) else CellValue.missing)
        = CellValue.text s
      rw [pstrip_eq_self _ hf.2.2.1]
      rw [if_pos hmem]
    · rw [if_neg ht] at hsafe ⊢
      have hstr := type_string_of a hattr hn ht
      have hdate : ¬ (a.type = AttributeType.DATE) := by
        rw [hstr]
        simp
      rw [if_neg hdate]
      have hf := safeTextCell_facts s hsafe
      have hne : s ≠ str "?" := text_ne_marker s hf.2.2
      rw [textCell, coerceTok, if_neg (by simp [hne])]

/-! ## Writer success on safe data -/

theorem formatValue_safe (dm : DateModel) (a : Attribute) (v : CellValue)
    (hattr : safeAttr a = true) (hsafe : safeCellFor a v = true) :
    formatValue dm defaultWriterCfg a v = .ok (serCell a v) := by
  rcases safeCellFor_shape a v hsafe with ⟨m, e, hv⟩ | ⟨s, hv⟩
  · subst hv
    have hn := (safeCellFor_num a m e hsafe).1
    rw [formatValue, if_neg (by simp), if_pos hn, serCell, if_pos hn]
  · subst hv
    have hn := safeCellFor_text a s hsafe
    have hnum : ¬ (a.is_numeric = true) := by rw [hn]; exact Bool.false_ne_true
    have hdate : ¬ (a.type = AttributeType.DATE) := by
      rcases safeAttr_type a hattr with h | h | h | h <;> rw [h] <;> simp
    rw [formatValue, if_neg (by simp), if_neg hnum, if_neg hdate, serCell, if_neg hnum]
    · rfl
    all_goals simp

theorem mapME_ok {α β : Type} (f : α → Except WriteErr β) (g : α → β) :
    ∀ l : List α, (∀ x ∈ l, f x = .ok (g x)) → mapME f l = .ok (l.map g) := by
  intro l
  induction l with
  | nil => intro _; rfl
  | cons a as ih =>
    intro h
    rw [mapME, h a (List.mem_cons_self a as), ih (fun x hx => h x (List.mem_cons_of_mem a hx))]
    rfl

theorem writeRowLine_safe (dm : DateModel) (attrs : List Attribute) (row : List CellValue)
    (h : ∀ p ∈ attrs.zip row, safeAttr p.1 = true ∧ safeCellFor p.1 p.2 = true) :
    writeRowLine dm defaultWriterCfg attrs row
      = .ok (joinSep [','] ((attrs.zip row).map (fun p => serCell p.1 p.2))) := by
  rw [writeRowLine]
  rw [mapME_ok _ (fun p => serCell p.1 p.2) _ (fun p hp =>
    formatValue_safe dm p.1 p.2 (h p hp).1 (h p hp).2)]

theorem writeArffData_safe (dm : DateModel) (d : ArffData)
    (h : ∀ r ∈ d.data, ∀ p ∈ d.attributes.zip r,
      safeAttr p.1 = true ∧ safeCellFor p.1 p.2 = true) :
    writeArffData dm defaultWriterCfg d
      = .ok ((d.comments.map (fun c => str "% " ++ c))
        ++ (if d.comments.isEmpty then [] else [[]])
        ++ [writeRelationLine d.relation_name, []]
        ++ d.attributes.map (writeAttributeLine defaultWriterCfg)
        ++ [[], str "@DATA"]
        ++ d.data.map (fun r =>
            joinSep [','] ((d.attributes.zip r).map (fun p => serCell p.1 p.2)))) := by
  rw [writeArffData]
  rw [mapME_ok _ (fun r => joinSep [','] ((d.attributes.zip r).map
      (fun p => serCell p.1 p.2))) _
    (fun r hr => writeRowLine_safe dm d.attributes r (h r hr))]

/-! ## Line-level parser lemmas -/

theorem processLine_blank (m : Str) (st : ParseState) :
    processLine m st [] = .ok { st with lineNumber := st.lineNumber + 1 } := rfl

theorem pstrip_cons_space (l : Str) : pstrip (' ' :: l) = pstrip l := rfl

theorem processLine_comment (m : Str) (st : ParseState) (c : Str)
    (hc : trimInv c = true) :
    processLine m st (str "% " ++ c)
      = .ok { st with comments := st.comments ++ [c],
                      lineNumber := st.lineNumber + 1 } := by
  cases hcc : c with
  | nil => rfl
  | cons a cs =>
    rw [← hcc]
    have hcne : c ≠ [] := by rw [hcc]; simp
    have hlast : wsp (c.getLastD ' ') = false := by
      rw [trimInv, hcc] at hc
      simp only [List.isEmpty_cons, Bool.false_or, Bool.and_eq_true,
        Bool.not_eq_true'] at hc
      rw [hcc]
      exact hc.2
    have hline : pstrip (str "% " ++ c) = str "% " ++ c := by
      apply pstrip_eq_self
      apply trimInv_of_ends
      · rfl
      · rw [show str "% " ++ c = ['%', ' '] ++ c from rfl,
          getLastD_append_right _ _ _ hcne]
        exact hlast
    simp only [processLine]
    rw [hline]
    rw [show (str "% " ++ c).isEmpty = false from rfl]
    rw [show ((str "% " ++ c).headD ' ' == '%') = true from rfl]
    simp only [Bool.false_eq_true, if_false, if_true]
    rw [show (str "% " ++ c).drop 1 = ' ' :: c from rfl, pstrip_cons_space,
      pstrip_eq_self c hc]

theorem processLines_append (m : Str) (xs ys : List Str) :
    ∀ st, processLines m st (xs ++ ys)
      = match processLines m st xs with
        | .error e => .error e
        | .ok st2 => processLines m st2 ys := by
  induction xs with
  | nil => intro st; rfl
  | cons l ls ih =>
    intro st
    rw [List.cons_append, processLines, processLines]
    cases processLine m st l with
    | error e => rfl
    | ok st2 => exact ih st2

theorem processLines_cons_ok (m : Str) (l : Str) (ls : List Str) (st st2 : ParseState)
    (h : processLine m st l = .ok st2) :
    processLines m st (l :: ls) = processLines m st2 ls := by
  rw [processLines, h]

theorem processLines_comments (m : Str) (cs : List Str)
    (h : ∀ c ∈ cs, trimInv c = true) :
    ∀ st, processLines m st (cs.map (fun c => str "% " ++ c))
      = .ok { st with comments := st.comments ++ cs,
                      lineNumber := st.lineNumber + cs.length } := by
  induction cs with
  | nil =>
    intro st
    show Except.ok st = _
    simp
  | cons c cs2 ih =>
    intro st
    rw [List.map_cons,
      processLines_cons_ok m _ _ st _
        (processLine_comment m st c (h c (List.mem_cons_self c cs2)))]
    rw [ih (fun x hx => h x (List.mem_cons_of_mem c hx))]
    have h1 : st.comments ++ [c] ++ cs2 = st.comments ++ c :: cs2 := by simp
    have h2 : st.lineNumber + 1 + cs2.length = st.lineNumber + (c :: cs2).length := by
      simp only [List.length_cons]
      omega
    simp only [h1, h2]

theorem processLine_dataDirective (m : Str) (st : ParseState)
    (h : st.inData = false) :
    processLine m st (str "@DATA")
      = .ok { st with inData := true, lineNumber := st.lineNumber + 1 } := by
  simp only [processLine]
  rw [show pstrip (str "@DATA") = str "@DATA" from rfl]
  rw [show (str "@DATA").isEmpty = false from rfl]
  rw [show ((str "@DATA").headD ' ' == '%') = false from rfl]
  simp only [Bool.false_eq_true, if_false, h]
  rw [show matchDataLine (str "@DATA") = true from rfl]
  simp only [if_true]

theorem matchDirective_spaceArg (key qn pre : Str)
    (hkey : pre.length = key.length) (hlow : (lowerStr pre == key) = true)
    (hqn : qn ≠ []) (hhead : wsp (qn.headD ' ') = false) :
    matchDirectiveArg key (pre ++ ' ' :: qn) = some qn := by
  have hdrop : (pre ++ ' ' :: qn).drop key.length = ' ' :: qn := by
    rw [← hkey, List.drop_left]
  have htake : (pre ++ ' ' :: qn).take key.length = pre := by
    rw [← hkey, List.take_left]
  rw [matchDirectiveArg]
  split
  · rename_i heq
    rw [hdrop] at heq
    exact List.noConfusion heq
  · rename_i c rest heq
    rw [hdrop] at heq
    injection heq with h1 h2
    subst h1
    rw [htake, hlow]
    rw [show wsp ' ' = true from rfl]
    simp only [Bool.and_true, if_true]
    rw [hdrop]
    have harg : (' ' :: qn).dropWhile wsp = qn := by
      rw [show (' ' :: qn).dropWhile wsp = qn.dropWhile wsp from rfl]
      cases hq : qn with
      | nil => exact absurd hq hqn
      | cons b bs =>
        rw [dropWhile_cons_of_neg _ _ _ (by
          rw [hq] at hhead
          simpa using hhead)]
    rw [harg]
    rw [if_neg (by
      intro hc
      apply hqn
      cases hq : qn with
      | nil => rfl
      | cons b bs => rw [hq] at hc; simp [List.isEmpty] at hc)]

def quotedNameR (n : Str) : Str :=
  if needsNameQuote n then '\'' :: (n ++ ['\'']) else n

theorem writeRelationLine_eq (n : Str) :
    writeRelationLine n = str "@RELATION" ++ (' ' :: quotedNameR n) := rfl

theorem safeRelName_facts (n : Str) (h : safeRelName n = true) :
    n ≠ [] ∧ onlySpaceWs n = true
      ∧ (needsNameQuote n = true ∨ quoteWrapped n = false) := by
  rw [safeRelName] at h
  simp only [Bool.and_eq_true, Bool.or_eq_true, Bool.not_eq_true'] at h
  obtain ⟨⟨⟨h1, _⟩, h3⟩, h4⟩ := h
  refine ⟨?_, h3, h4⟩
  intro hc
  subst hc
  simp [List.isEmpty] at h1

theorem no_ws_of (n : Str) (hos : onlySpaceWs n = true)
    (hnq : needsNameQuote n = false) : ∀ c ∈ n, wsp c = false := by
  rw [onlySpaceWs] at hos
  rw [needsNameQuote] at hnq
  simp only [List.all_eq_true, Bool.or_eq_true, Bool.not_eq_true'] at hos
  simp only [List.any_eq_false] at hnq
  intro c hc
  rcases hos c hc with h | h
  · exact h
  · exfalso
    have h2 := hnq c hc
    simp only [Bool.or_eq_true, not_or] at h2
    exact h2.1.1 (by simpa using h)

theorem quotedNameR_facts (n : Str) (h : safeRelName n = true) :
    quotedNameR n ≠ [] ∧ wsp ((quotedNameR n).headD ' ') = false
      ∧ wsp ((quotedNameR n).getLastD ' ') = false
      ∧ cleanString (quotedNameR n) = n := by
  obtain ⟨hne, hos, hwr⟩ := safeRelName_facts n h
  rw [quotedNameR]
  by_cases hq : needsNameQuote n = true
  · rw [if_pos hq]
    have hlast : (('\'' :: (n ++ ['\''])).getLastD ' ') = '\'' := by
      rw [show '\'' :: (n ++ ['\'']) = ('\'' :: n) ++ ['\''] from by simp,
        getLastD_concat2]
    refine ⟨by simp, by rw [List.headD_cons]; decide, by rw [hlast]; decide, ?_⟩
    rw [cleanString]
    rw [pstrip_eq_self _ (trimInv_of_ends _ (by rw [List.headD_cons]; decide)
      (by rw [hlast]; decide))]
    rw [if_pos (by
      rw [List.headD_cons, hlast]
      have hl : 1 ≤ n.length := List.length_pos.mpr hne
      simp [isQuoteCh]
      omega)]
    simp
  · rw [if_neg hq]
    have hnq2 : needsNameQuote n = false := by simpa using hq
    have hnws := no_ws_of n hos hnq2
    have hwr2 : quoteWrapped n = false := by
      rcases hwr with h1 | h1
      · exact absurd h1 hq
      · exact h1
    refine ⟨hne, hnws _ (headD_mem n ' ' hne), hnws _ (getLastD_mem n ' ' hne), ?_⟩
    rw [cleanString]
    rw [pstrip_eq_self _ (trimInv_of_ends _ (hnws _ (headD_mem n ' ' hne))
      (hnws _ (getLastD_mem n ' ' hne)))]
    rw [if_neg (by
      rw [show ((n.length ≥ 3 && isQuoteCh (n.headD ' ')
        && isQuoteCh (n.getLastD ' ')) = true) = (quoteWrapped n = true) from rfl]
      rw [hwr2]
      exact Bool.false_ne_true)]

theorem processLine_relation (m : Str) (st : ParseState) (n : Str)
    (hd : st.inData = false) (hn : safeRelName n = true) :
    processLine m st (writeRelationLine n)
      = .ok { st with relation := some n, lineNumber := st.lineNumber + 1 } := by
  obtain ⟨hqne, hqhead, hqlast, hclean⟩ := quotedNameR_facts n hn
  rw [writeRelationLine_eq]
  have hline : pstrip (str "@RELATION" ++ (' ' :: quotedNameR n))
      = str "@RELATION" ++ (' ' :: quotedNameR n) := by
    apply pstrip_eq_self
    apply trimInv_of_ends
    · rfl
    · rw [getLastD_append_right _ _ _ (by simp),
        show (' ' :: quotedNameR n).getLastD ' '
          = (quotedNameR n).getLastD ' ' from
        getLastD_append_right [' '] _ ' ' hqne]
      exact hqlast
  simp only [processLine]
  rw [hline]
  rw [show (str "@RELATION" ++ (' ' :: quotedNameR n)).isEmpty = false from rfl]
  rw [show ((str "@RELATION" ++ (' ' :: quotedNameR n)).headD ' ' == '%')
    = false from rfl]
  simp only [Bool.false_eq_true, if_false, hd]
  rw [show matchDataLine (str "@RELATION" ++ (' ' :: quotedNameR n))
    = false from by
    rw [matchDataLine, lowerStr, List.map_append]
    rfl]
  simp only [Bool.false_eq_true, if_false]
  rw [matchDirective_spaceArg (str "@relation") (quotedNameR n) (str "@RELATION")
    rfl rfl hqne hqhead]
  show Except.ok (⟨some (cleanString (quotedNameR n)), st.attrs, st.rows,
    st.comments, false, st.lineNumber + 1⟩ : ParseState) = _
  rw [hclean]

/-! ## Nominal-values round trip -/

theorem joinSep_single (sep x : Str) : joinSep sep [x] = x := by
  rw [joinSep]

theorem joinSep_cons2 (sep x y : Str) (xs : List Str) :
    joinSep sep (x :: y :: xs) = x ++ (sep ++ joinSep sep (y :: xs)) := by
  rw [joinSep, List.append_assoc]

theorem quoteIfNeeded_ne_nil (q : Char) (s : Str) : quoteIfNeeded q s ≠ [] := by
  rw [quoteIfNeeded]
  by_cases h : s.isEmpty = true
  · rw [if_pos h]; simp
  · rw [if_neg h]
    by_cases h2 : needsQuoting q s = true
    · rw [if_pos h2]; simp
    · rw [if_neg h2]
      intro hc
      rw [hc] at h
      exact h rfl

theorem parseNominalGo_plain (p : Str)
    (h : ∀ c ∈ p, isQuoteCh c = false ∧ c ≠ ',') :
    ∀ rest values cur, parseNominalGo values cur false none (p ++ rest)
      = parseNominalGo values (cur ++ p) false none rest := by
  induction p with
  | nil => intro rest values cur; simp
  | cons c cs ih =>
    intro rest values cur
    have hc := h c (List.mem_cons_self c cs)
    have ih2 := ih (fun x hx => h x (List.mem_cons_of_mem c hx))
    rw [List.cons_append, parseNominalGo]
    rw [if_neg (by rw [hc.1]; simp), if_neg (by simp), if_neg (by simp [hc.2]), ih2]
    simp

theorem parseNominalGo_quoted_mid (p : Str) (h : '\'' ∉ p) :
    ∀ rest values cur, parseNominalGo values cur true (some '\'') (p ++ rest)
      = parseNominalGo values (cur ++ p) true (some '\'') rest := by
  induction p with
  | nil => intro rest values cur; simp
  | cons c cs ih =>
    intro rest values cur
    have hc : c ≠ '\'' := fun he => h (he ▸ List.mem_cons_self c cs)
    have ih2 := ih (fun hx => h (List.mem_cons_of_mem c hx))
    rw [List.cons_append, parseNominalGo]
    rw [if_neg (by simp), if_neg (by simp [hc]), if_neg (by simp), ih2]
    simp

theorem parseNominalGo_open (rest : Str) (values : List Str) (cur : Str) :
    parseNominalGo values cur false none ('\'' :: rest)
      = parseNominalGo values cur true (some '\'') rest := by
  rw [parseNominalGo]
  rw [if_pos (by simp [isQuoteCh])]

theorem parseNominalGo_close (rest : Str) (values : List Str) (cur : Str) :
    parseNominalGo values cur true (some '\'') ('\'' :: rest)
      = parseNominalGo values cur false none rest := by
  rw [parseNominalGo]
  rw [if_neg (by simp), if_pos (by simp)]

theorem cleanString_safeVal (v : Str) (hv : safeNominalVal v = true) :
    cleanString v = v := by
  have hf := safeNominalVal_facts v hv
  rw [cleanString, pstrip_eq_self _ hf.2.2.1]
  rw [if_neg (by
    have hhq : isQuoteCh (v.headD ' ') = false := by
      have h1 : v.headD ' ' ≠ '\'' := fun he => hf.2.2.2.1 (he ▸ headD_mem v ' ' hf.1)
      have h2 : v.headD ' ' ≠ '"' := fun he => hf.2.2.2.2.1 (he ▸ headD_mem v ' ' hf.1)
      simp only [isQuoteCh, Bool.or_eq_false_iff, decide_eq_false_iff_not]
      exact ⟨h1, h2⟩
    rw [show ((v.length ≥ 3 && isQuoteCh (v.headD ' ') && isQuoteCh (v.getLastD ' '))
      = true) = ((v.length ≥ 3 && isQuoteCh (v.headD ' ')
        && isQuoteCh (v.getLastD ' ')) = true) from rfl]
    rw [hhq]
    simp)]

theorem parseNominalGo_piece (v : Str) (hv : safeNominalVal v = true) :
    ∀ rest values pre, parseNominalGo values pre false none (quoteIfNeeded '\'' v ++ rest)
      = parseNominalGo values (pre ++ v) false none rest := by
  intro rest values pre
  have hf := safeNominalVal_facts v hv
  have hemp : v.isEmpty = false := by
    cases hvv : v with
    | nil => exact absurd hvv hf.1
    | cons a l => rfl
  rw [quoteIfNeeded, if_neg (by rw [hemp]; exact Bool.false_ne_true)]
  by_cases hq : needsQuoting '\'' v = true
  · rw [if_pos hq, escapeQuote_id _ _ hf.2.2.2.1]
    rw [List.cons_append, parseNominalGo_open]
    rw [show (v ++ ['\'']) ++ rest = v ++ ('\'' :: rest) from by simp]
    rw [parseNominalGo_quoted_mid v hf.2.2.2.1, parseNominalGo_close]
  · rw [if_neg hq]
    apply parseNominalGo_plain
    intro c hc
    have hfx := needsQuoting_false_facts '\'' v (by simpa using hq) c hc
    refine ⟨by simp [isQuoteCh, hfx.2.2.2.2.2.1, hfx.2.2.2.2.2.2], hfx.2.1⟩

theorem parseNominalGo_space (rest : Str) (values : List Str) :
    parseNominalGo values [] false none (' ' :: rest)
      = parseNominalGo values [' '] false none rest := by
  rw [parseNominalGo]
  rw [if_neg (by simp [isQuoteCh]), if_neg (by simp), if_neg (by simp)]
  rfl

theorem parseNominalGo_comma_flush (rest : Str) (values : List Str) (v : Str)
    (pre : Str) (hpre : pre = [] ∨ pre = [' ']) (hv : safeNominalVal v = true) :
    parseNominalGo values (pre ++ v) false none (',' :: rest)
      = parseNominalGo (values ++ [v]) [] false none rest := by
  have hf := safeNominalVal_facts v hv
  rw [parseNominalGo]
  rw [if_neg (by simp [isQuoteCh]), if_neg (by simp), if_pos (by simp)]
  have hps : pstrip (pre ++ v) = v := by
    rcases hpre with h | h <;> subst h
    · rw [List.nil_append, pstrip_eq_self _ hf.2.2.1]
    · rw [show [' '] ++ v = ' ' :: v from rfl, pstrip_cons_space,
        pstrip_eq_self _ hf.2.2.1]
  rw [hps]
  show parseNominalGo (if v.isEmpty = true then values else values ++ [cleanString v])
    [] false none rest = _
  rw [if_neg (by
    intro hc
    apply hf.1
    cases hvv : v with
    | nil => rfl
    | cons a l => rw [hvv] at hc; simp [List.isEmpty] at hc)]
  rw [cleanString_safeVal v hv]

theorem parseNominalGo_end_flush (values : List Str) (v : Str)
    (pre : Str) (hpre : pre = [] ∨ pre = [' ']) (hv : safeNominalVal v = true) :
    parseNominalGo values (pre ++ v) false none [] = values ++ [v] := by
  have hf := safeNominalVal_facts v hv
  rw [parseNominalGo]
  have hps : pstrip (pre ++ v) = v := by
    rcases hpre with h | h <;> subst h
    · rw [List.nil_append, pstrip_eq_self _ hf.2.2.1]
    · rw [show [' '] ++ v = ' ' :: v from rfl, pstrip_cons_space,
        pstrip_eq_self _ hf.2.2.1]
  rw [hps]
  show (if v.isEmpty = true then values else values ++ [cleanString v]) = _
  rw [if_neg (by
    intro hc
    apply hf.1
    cases hvv : v with
    | nil => rfl
    | cons a l => rw [hvv] at hc; simp [List.isEmpty] at hc)]
  rw [cleanString_safeVal v hv]

theorem parseNominalValues_join (vs : List Str)
    (h : ∀ v ∈ vs, safeNominalVal v = true) :
    ∀ values pre, pre = [] ∨ pre = [' '] →
      parseNominalGo values pre false none
          (joinSep (str ", ") (vs.map (quoteIfNeeded '\'')))
        = values ++ vs := by
  induction vs with
  | nil =>
    intro values pre hpre
    rcases hpre with h1 | h1 <;> subst h1
    · show values = values ++ []
      simp
    · show values = values ++ []
      simp
  | cons v vs2 ih =>
    intro values pre hpre
    have hv := h v (List.mem_cons_self v vs2)
    cases vs2 with
    | nil =>
      rw [List.map_cons, List.map_nil, joinSep_single]
      rw [show quoteIfNeeded '\'' v = quoteIfNeeded '\'' v ++ [] from by simp]
      rw [parseNominalGo_piece v hv [] values pre]
      rw [parseNominalGo_end_flush values v pre hpre hv]
    | cons w ws =>
      rw [List.map_cons, List.map_cons, joinSep_cons2]
      rw [parseNominalGo_piece v hv _ values pre]
      rw [show str ", " ++ joinSep (str ", ")
            (quoteIfNeeded '\'' w :: ws.map (quoteIfNeeded '\''))
        = ',' :: ' ' :: joinSep (str ", ")
            (quoteIfNeeded '\'' w :: ws.map (quoteIfNeeded '\'')) from rfl]
      rw [parseNominalGo_comma_flush _ values v pre hpre hv]
      rw [parseNominalGo_space]
      rw [← List.map_cons]
      rw [ih (fun x hx => h x (List.mem_cons_of_mem v hx)) (values ++ [v]) [' ']
        (Or.inr rfl)]
      simp

theorem parseNominalValues_round (vs : List Str)
    (h : ∀ v ∈ vs, safeNominalVal v = true) :
    parseNominalValues (joinSep (str ", ") (vs.map (quoteIfNeeded '\''))) = vs := by
  rw [parseNominalValues]
  rw [parseNominalValues_join vs h [] [] (Or.inl rfl)]
  simp

/-! ## Attribute-line round trip -/

def typeSpecOf (cfg : WriterCfg) (a : Attribute) : Str :=
  match a.type with
  | .NOMINAL => '{' :: (joinSep (str ", ")
      ((a.nominal_values.getD []).map (quoteIfNeeded cfg.string_quote)) ++ ['}'])
  | .DATE =>
      match a.date_format with
      | some f => str "DATE " ++ ('\'' :: (f ++ ['\'']))
      | none => str "DATE"
  | .STRING => str "STRING"
  | .INTEGER => str "INTEGER"
  | _ => str "NUMERIC"

theorem beq_head_ne (a b : Char) (as bs : Str) (h : (a == b) = false) :
    ((a :: as) == (b :: bs)) = false := by
  rw [show ((a :: as) == (b :: bs)) = ((a == b) && (as == bs)) from rfl, h,
    Bool.false_and]

theorem safeAttrName_facts (n : Str) (h : safeAttrName n = true) :
    n ≠ [] ∧ onlySpaceWs n = true
      ∧ ((needsNameQuote n = true ∧ '\'' ∉ n)
        ∨ (needsNameQuote n = false ∧ isQuoteCh (n.headD ' ') = false)) := by
  rw [safeAttrName] at h
  simp only [Bool.and_eq_true] at h
  obtain ⟨⟨⟨h1, _⟩, h3⟩, h4⟩ := h
  refine ⟨?_, h3, ?_⟩
  · intro hc
    subst hc
    simp [List.isEmpty] at h1
  · by_cases hq : needsNameQuote n = true
    · rw [if_pos hq] at h4
      simp only [Bool.not_eq_true'] at h4
      exact Or.inl ⟨hq, not_mem_of_contains_false _ _ h4⟩
    · rw [if_neg hq] at h4
      simp only [Bool.not_eq_true'] at h4
      exact Or.inr ⟨by simpa using hq, h4⟩

theorem writeAttributeLine_eq (cfg : WriterCfg) (a : Attribute)
    (ha : safeAttr a = true) :
    writeAttributeLine cfg a
      = str "@ATTRIBUTE" ++ ' ' :: (quoteNameIfNeeded a.name
          ++ ' ' :: typeSpecOf cfg a) := by
  rcases safeAttr_type a ha with ht | ht | ht | ht
  · rw [writeAttributeLine, typeSpecOf, ht]
    rw [if_neg (by simp), if_neg (by simp), if_neg (by simp), if_neg (by simp)]
    rfl
  · rw [writeAttributeLine, typeSpecOf, ht]
    rw [if_neg (by simp), if_neg (by simp), if_neg (by simp), if_pos rfl]
    rfl
  · rw [writeAttributeLine, typeSpecOf, ht]
    rw [if_neg (by simp), if_neg (by simp), if_pos rfl]
    rfl
  · obtain ⟨vs, hvs, hvne, _, _⟩ := safeAttr_nominal a ha ht
    rw [writeAttributeLine, typeSpecOf, ht, hvs]
    rw [if_pos (by
      cases hv2 : vs with
      | nil => exact absurd hv2 hvne
      | cons x xs => simp [nominalTruthy])]
    rfl

theorem parseAttribute_stage (n ts : Str) (ln : Nat) (h : safeAttrName n = true)
    (h1 : ts ≠ []) (h2 : wsp (ts.headD ' ') = false)
    (h3 : wsp (ts.getLastD ' ') = false) :
    parseAttribute (quoteNameIfNeeded n ++ ' ' :: ts) ln
      = parseAttrType n ts ln (quoteNameIfNeeded n ++ ' ' :: ts) := by
  obtain ⟨hne, hos, hcase⟩ := safeAttrName_facts n h
  have hpsts : pstrip ts = ts := pstrip_eq_self _ (trimInv_of_ends _ h2 h3)
  rcases hcase with ⟨hq, hnoq⟩ | ⟨hq, hhead⟩
  · -- quoted name
    have hform : quoteNameIfNeeded n = '\'' :: (n ++ ['\'']) := by
      rw [quoteNameIfNeeded, if_pos (by rw [show (n.any (fun c => c == ' '
        || c == ',' || c == '%')) = needsNameQuote n from rfl, hq])]
    rw [hform]
    have hshape : ('\'' :: (n ++ ['\''])) ++ ' ' :: ts
        = '\'' :: (n ++ ('\'' :: ' ' :: ts)) := by simp
    rw [hshape]
    have hstrip : pstrip ('\'' :: (n ++ ('\'' :: ' ' :: ts)))
        = '\'' :: (n ++ ('\'' :: ' ' :: ts)) := by
      apply pstrip_eq_self
      apply trimInv_of_ends
      · rw [List.headD_cons]; decide
      · rw [show ('\'' :: (n ++ ('\'' :: ' ' :: ts))).getLastD ' '
          = ts.getLastD ' ' from by
          rw [show '\'' :: (n ++ ('\'' :: ' ' :: ts))
            = ('\'' :: (n ++ ['\'', ' '])) ++ ts from by simp]
          exact getLastD_append_right _ _ _ h1]
        exact h3
    rw [parseAttribute]
    simp only [hstrip]
    rw [if_pos (by rw [List.headD_cons]; decide)]
    have htake := takeWhile_all_append (fun c => !(c == '\'')) n '\'' (' ' :: ts)
      (fun c hc => by
        have : c ≠ '\'' := fun he => hnoq (he ▸ hc)
        simp [this])
      (by simp)
    rw [show ('\'' :: (n ++ ('\'' :: ' ' :: ts))).drop 1
      = n ++ '\'' :: ' ' :: ts from rfl]
    rw [show (List.headD ('\'' :: (n ++ ('\'' :: ' ' :: ts))) ' ') = '\'' from rfl]
    rw [htake.1, htake.2]
    show parseAttrType n (pstrip (' ' :: ts)) ln ('\'' :: (n ++ '\'' :: ' ' :: ts))
      = parseAttrType n ts ln ('\'' :: (n ++ '\'' :: ' ' :: ts))
    rw [pstrip_cons_space ts, hpsts]
  · -- bare name
    have hform : quoteNameIfNeeded n = n := by
      have hx : (n.any (fun c => c == ' ' || c == ',' || c == '%')) = false := hq
      rw [quoteNameIfNeeded, if_neg (by rw [hx]; exact Bool.false_ne_true)]
    rw [hform]
    have hnws := no_ws_of n hos hq
    have hstrip : pstrip (n ++ ' ' :: ts) = n ++ ' ' :: ts := by
      apply pstrip_eq_self
      apply trimInv_of_ends
      · rw [headD_append_left _ _ _ hne]
        exact hnws _ (headD_mem n ' ' hne)
      · rw [show n ++ ' ' :: ts = (n ++ [' ']) ++ ts from by simp,
          getLastD_append_right _ _ _ h1]
        exact h3
    have htake := takeWhile_all_append (fun c => !(wsp c)) n ' ' ts
      (fun c hc => by simp [hnws c hc]) (by rfl)
    have hsplit : splitFirstWs (n ++ ' ' :: ts) = (n, ts) := by
      rw [splitFirstWs, htake.1, htake.2]
      rw [show (' ' :: ts).dropWhile wsp = ts.dropWhile wsp from rfl]
      cases ts with
      | nil => exact absurd rfl h1
      | cons a as =>
        rw [List.headD_cons] at h2
        rw [dropWhile_cons_of_neg wsp a as h2]
    rw [parseAttribute]
    simp only [hstrip, hsplit]
    rw [if_neg (by
      rw [headD_append_left _ _ _ hne]
      rw [hhead]
      exact Bool.false_ne_true)]
    rw [if_neg (show ¬(ts.isEmpty = true) from by
      cases ts with
      | nil => exact absurd rfl h1
      | cons a as => simp [List.isEmpty])]
    show parseAttrType n (pstrip ts) ln (n ++ ' ' :: ts)
      = parseAttrType n ts ln (n ++ ' ' :: ts)
    rw [hpsts]

theorem parseAttrType_numeric (n : Str) (ln : Nat) (ad : Str) :
    parseAttrType n (str "NUMERIC") ln ad = .ok ⟨n, .NUMERIC, none, none⟩ := rfl

theorem parseAttrType_integer (n : Str) (ln : Nat) (ad : Str) :
    parseAttrType n (str "INTEGER") ln ad = .ok ⟨n, .INTEGER, none, none⟩ := rfl

theorem parseAttrType_string (n : Str) (ln : Nat) (ad : Str) :
    parseAttrType n (str "STRING") ln ad = .ok ⟨n, .STRING, none, none⟩ := rfl

theorem parseAttrType_brace (n : Str) (ln : Nat) (ad : Str) (inner : Str) :
    parseAttrType n ('{' :: (inner ++ ['}'])) ln ad
      = if ((decide (('{' :: (inner ++ ['}'])).length ≥ 3)
            && (('{' :: (inner ++ ['}'])).headD ' ' == '{'))
            && (('{' :: (inner ++ ['}'])).getLastD ' ' == '}')) = true
        then .ok ⟨n, .NOMINAL, some (parseNominalValues
          ((('{' :: (inner ++ ['}'])).drop 1).dropLast)), none⟩
        else .error ⟨.unknownAttrType ('{' :: (inner ++ ['}'])),
          some ln, some ad⟩ := rfl

theorem parseAttrType_nominal (n : Str) (ln : Nat) (ad : Str) (vs : List Str)
    (hvne : vs ≠ []) (hall : ∀ v ∈ vs, safeNominalVal v = true) :
    parseAttrType n
        ('{' :: (joinSep (str ", ") (vs.map (quoteIfNeeded '\'')) ++ ['}'])) ln ad
      = .ok ⟨n, .NOMINAL, some vs, none⟩ := by
  obtain ⟨v0, vrest, hv0⟩ : ∃ v0 vrest, vs = v0 :: vrest := by
    cases vs with
    | nil => exact absurd rfl hvne
    | cons a as => exact ⟨a, as, rfl⟩
  have hJne : joinSep (str ", ") (vs.map (quoteIfNeeded '\'')) ≠ [] := by
    rw [hv0]
    exact joinSep_ne_nil _ _ _ (quoteIfNeeded_ne_nil '\'' v0)
  have hlen2 : 1 ≤ (joinSep (str ", ") (vs.map (quoteIfNeeded '\''))).length :=
    List.length_pos.mpr hJne
  rw [parseAttrType_brace]
  rw [if_pos (by
    have h2 : ('{' :: (joinSep (str ", ") (vs.map (quoteIfNeeded '\''))
        ++ ['}'])).length ≥ 3 := by
      simp only [List.length_cons, List.length_append, List.length_singleton]
      omega
    have h1 : ('{' :: (joinSep (str ", ") (vs.map (quoteIfNeeded '\''))
        ++ ['}'])).getLastD ' ' = '}' := by
      rw [show '{' :: (joinSep (str ", ") (vs.map (quoteIfNeeded '\'')) ++ ['}'])
        = ('{' :: joinSep (str ", ") (vs.map (quoteIfNeeded '\''))) ++ ['}']
        from by simp, getLastD_concat2]
    rw [decide_eq_true h2, h1]
    rfl)]
  rw [show ('{' :: (joinSep (str ", ") (vs.map (quoteIfNeeded '\''))
    ++ ['}'])).drop 1 = joinSep (str ", ") (vs.map (quoteIfNeeded '\'')) ++ ['}']
    from rfl]
  rw [List.dropLast_concat]
  rw [parseNominalValues_round vs hall]

theorem quoteNameIfNeeded_facts (n : Str) (h : safeAttrName n = true) :
    quoteNameIfNeeded n ≠ [] ∧ wsp ((quoteNameIfNeeded n).headD ' ') = false := by
  obtain ⟨hne, hos, hcase⟩ := safeAttrName_facts n h
  rcases hcase with ⟨hq, _⟩ | ⟨hq, _⟩
  · have hform : quoteNameIfNeeded n = '\'' :: (n ++ ['\'']) := by
      rw [quoteNameIfNeeded, if_pos (by
        rw [show (n.any (fun c => c == ' ' || c == ',' || c == '%'))
          = needsNameQuote n from rfl, hq])]
    rw [hform]
    refine ⟨by simp, rfl⟩
  · have hform : quoteNameIfNeeded n = n := by
      have hx : (n.any (fun c => c == ' ' || c == ',' || c == '%')) = false := hq
      rw [quoteNameIfNeeded, if_neg (by rw [hx]; exact Bool.false_ne_true)]
    rw [hform]
    exact ⟨hne, no_ws_of n hos hq _ (headD_mem n ' ' hne)⟩

theorem processLine_attrLine (m : Str) (st : ParseState) (n ts : Str)
    (a' : Attribute) (hd : st.inData = false) (hname : safeAttrName n = true)
    (hts1 : ts ≠ []) (hts2 : wsp (ts.headD ' ') = false)
    (hts3 : wsp (ts.getLastD ' ') = false)
    (hdisp : parseAttrType n ts (st.lineNumber + 1)
        (quoteNameIfNeeded n ++ ' ' :: ts) = .ok a') :
    processLine m st (str "@ATTRIBUTE" ++ ' ' :: (quoteNameIfNeeded n ++ ' ' :: ts))
      = .ok { st with attrs := st.attrs ++ [a'], lineNumber := st.lineNumber + 1 } := by
  obtain ⟨hqne, hqhead⟩ := quoteNameIfNeeded_facts n hname
  have harg : quoteNameIfNeeded n ++ ' ' :: ts ≠ [] := by simp
  have hline : pstrip (str "@ATTRIBUTE"
      ++ ' ' :: (quoteNameIfNeeded n ++ ' ' :: ts))
      = str "@ATTRIBUTE" ++ ' ' :: (quoteNameIfNeeded n ++ ' ' :: ts) := by
    apply pstrip_eq_self
    apply trimInv_of_ends
    · rfl
    · rw [getLastD_append_right _ _ _ (by simp),
        show (' ' :: (quoteNameIfNeeded n ++ ' ' :: ts)).getLastD ' '
          = (quoteNameIfNeeded n ++ ' ' :: ts).getLastD ' ' from
        getLastD_append_right [' '] _ ' ' harg,
        getLastD_append_right _ _ _ (by simp),
        show (' ' :: ts).getLastD ' ' = ts.getLastD ' ' from
        getLastD_append_right [' '] _ ' ' hts1]
      exact hts3
  simp only [processLine]
  rw [hline]
  rw [show (str "@ATTRIBUTE"
    ++ ' ' :: (quoteNameIfNeeded n ++ ' ' :: ts)).isEmpty = false from rfl]
  rw [show ((str "@ATTRIBUTE"
    ++ ' ' :: (quoteNameIfNeeded n ++ ' ' :: ts)).headD ' ' == '%')
    = false from rfl]
  simp only [Bool.false_eq_true, if_false, hd]
  rw [show matchDataLine (str "@ATTRIBUTE"
    ++ ' ' :: (quoteNameIfNeeded n ++ ' ' :: ts)) = false from by
    rw [matchDataLine, lowerStr, List.map_append]
    rfl]
  simp only [Bool.false_eq_true, if_false]
  rw [show matchDirectiveArg (str "@relation") (str "@ATTRIBUTE"
    ++ ' ' :: (quoteNameIfNeeded n ++ ' ' :: ts)) = none from rfl]
  rw [matchDirective_spaceArg (str "@attribute")
    (quoteNameIfNeeded n ++ ' ' :: ts) (str "@ATTRIBUTE")
    rfl rfl harg (by rw [headD_append_left _ _ _ hqne]; exact hqhead)]
  show (match parseAttribute (quoteNameIfNeeded n ++ ' ' :: ts)
      (st.lineNumber + 1) with
    | Except.error e => Except.error e
    | Except.ok attr => Except.ok (⟨st.relation, st.attrs ++ [attr], st.rows,
        st.comments, false, st.lineNumber + 1⟩ : ParseState)) = _
  rw [parseAttribute_stage n ts (st.lineNumber + 1) hname hts1 hts2 hts3]
  rw [hdisp]

theorem processLine_attribute (m : Str) (st : ParseState) (a : Attribute)
    (hd : st.inData = false) (ha : safeAttr a = true) :
    processLine m st (writeAttributeLine defaultWriterCfg a)
      = .ok { st with attrs := st.attrs ++ [a], lineNumber := st.lineNumber + 1 } := by
  rw [writeAttributeLine_eq defaultWriterCfg a ha]
  have hname := safeAttr_name a ha
  rcases safeAttr_type a ha with ht | ht | ht | ht
  · obtain ⟨hnv, hdf⟩ := safeAttr_plain a ha (by rw [ht]; intro hc; cases hc)
    have hts : typeSpecOf defaultWriterCfg a = str "NUMERIC" := by
      rw [typeSpecOf, ht]
    rw [hts]
    refine processLine_attrLine m st a.name (str "NUMERIC") a hd hname
      (by decide) (by decide) (by decide) ?_
    rw [parseAttrType_numeric]
    cases a
    simp_all
  · obtain ⟨hnv, hdf⟩ := safeAttr_plain a ha (by rw [ht]; intro hc; cases hc)
    have hts : typeSpecOf defaultWriterCfg a = str "INTEGER" := by
      rw [typeSpecOf, ht]
    rw [hts]
    refine processLine_attrLine m st a.name (str "INTEGER") a hd hname
      (by decide) (by decide) (by decide) ?_
    rw [parseAttrType_integer]
    cases a
    simp_all
  · obtain ⟨hnv, hdf⟩ := safeAttr_plain a ha (by rw [ht]; intro hc; cases hc)
    have hts : typeSpecOf defaultWriterCfg a = str "STRING" := by
      rw [typeSpecOf, ht]
    rw [hts]
    refine processLine_attrLine m st a.name (str "STRING") a hd hname
      (by decide) (by decide) (by decide) ?_
    rw [parseAttrType_string]
    cases a
    simp_all
  · obtain ⟨vs, hvs, hvne, hvsafe, hdf⟩ := safeAttr_nominal a ha ht
    have hts : typeSpecOf defaultWriterCfg a
        = '{' :: (joinSep (str ", ") (vs.map (quoteIfNeeded '\'')) ++ ['}']) := by
      rw [typeSpecOf, ht, hvs]
      rfl
    rw [hts]
    have hJne : joinSep (str ", ") (vs.map (quoteIfNeeded '\'')) ≠ [] := by
      obtain ⟨v0, vrest, hv0⟩ : ∃ v0 vrest, vs = v0 :: vrest := by
        cases vs with
        | nil => exact absurd rfl hvne
        | cons x xs => exact ⟨x, xs, rfl⟩
      rw [hv0]
      exact joinSep_ne_nil _ _ _ (quoteIfNeeded_ne_nil '\'' v0)
    refine processLine_attrLine m st a.name
      ('{' :: (joinSep (str ", ") (vs.map (quoteIfNeeded '\'')) ++ ['}']))
      a hd hname (by simp) rfl ?_ ?_
    · rw [show '{' :: (joinSep (str ", ") (vs.map (quoteIfNeeded '\'')) ++ ['}'])
        = ('{' :: joinSep (str ", ") (vs.map (quoteIfNeeded '\''))) ++ ['}']
        from by simp, getLastD_concat2]
      rfl
    · rw [parseAttrType_nominal a.name (st.lineNumber + 1) _ vs hvne hvsafe]
      cases a
      simp_all

/-! ## Data-row round trip -/

theorem isEmpty_false_of_ne {α : Type} (l : List α) (h : l ≠ []) :
    l.isEmpty = false := by
  cases l with
  | nil => exact absurd rfl h
  | cons a as => rfl

theorem trimInv_ends (s : Str) (hne : s ≠ []) (h : trimInv s = true) :
    wsp (s.headD ' ') = false ∧ wsp (s.getLastD ' ') = false := by
  rw [trimInv, isEmpty_false_of_ne s hne] at h
  simp only [Bool.false_or, Bool.and_eq_true, Bool.not_eq_true'] at h
  exact h

theorem serCell_wf (a : Attribute) (v : CellValue)
    (hattr : safeAttr a = true) (hsafe : safeCellFor a v = true) :
    WFPiece (serCell a v) := by
  rcases safeCellFor_shape a v hsafe with ⟨m, e, hv⟩ | ⟨s, hv⟩
  · subst hv
    have hn := (safeCellFor_num a m e hsafe).1
    rw [serCell, if_pos hn]
    refine Or.inr (fun c hc => ?_)
    have hf := renderChar_flat c (renderNum_chars m e c hc)
    refine ⟨hf.2.1, ?_⟩
    have := hf.2.2.1
    simpa using this
  · subst hv
    have hn := safeCellFor_text a s hsafe
    rw [serCell, if_neg (by rw [hn]; exact Bool.false_ne_true)]
    exact quoteIfNeeded_wf s (safeCellFor_text_noquote a s hattr hsafe).1

theorem serCell_ends (a : Attribute) (v : CellValue)
    (hattr : safeAttr a = true) (hsafe : safeCellFor a v = true) :
    serCell a v ≠ []
      ∧ wsp ((serCell a v).headD ' ') = false
      ∧ wsp ((serCell a v).getLastD ' ') = false
      ∧ (((serCell a v).headD ' ') == '%') = false
      ∧ (((serCell a v).headD ' ') == '{') = false := by
  rcases safeCellFor_shape a v hsafe with ⟨m, e, hv⟩ | ⟨s, hv⟩
  · subst hv
    have hn := (safeCellFor_num a m e hsafe).1
    rw [serCell, if_pos hn]
    have hne := renderNum_ne_nil m e
    have hhd := renderChar_flat _ (renderNum_chars m e _ (headD_mem _ ' ' hne))
    have hlt := renderChar_flat _ (renderNum_chars m e _ (getLastD_mem _ ' ' hne))
    exact ⟨hne, hhd.1, hlt.1, hhd.2.2.2.2, hhd.2.2.2.1⟩
  · subst hv
    have hn := safeCellFor_text a s hsafe
    rw [serCell, if_neg (by rw [hn]; exact Bool.false_ne_true)]
    obtain ⟨hnoq, hdisj⟩ := safeCellFor_text_noquote a s hattr hsafe
    rw [quoteIfNeeded]
    by_cases hemp : s.isEmpty = true
    · rw [if_pos hemp]
      refine ⟨by simp, ?_, ?_, ?_, ?_⟩ <;> decide
    · rw [if_neg hemp]
      by_cases hq : needsQuoting '\'' s = true
      · rw [if_pos hq]
        refine ⟨by simp, ?_, ?_, ?_, ?_⟩
        · rfl
        · rw [show ('\'' :: (escapeQuote '\'' s ++ ['\''])).getLastD ' '
            = (('\'' :: escapeQuote '\'' s) ++ ['\'']).getLastD ' ' from by simp,
            getLastD_concat2]
          rfl
        · rfl
        · rfl
      · rw [if_neg hq]
        have hsne : s ≠ [] := by
          intro hc; subst hc; exact hemp rfl
        have htrim : trimInv s = true := by
          rcases hdisj with hh | hh | hh
          · exact absurd hh hq
          · exact absurd hh hsne
          · exact hh.1
        obtain ⟨hh1, hh2⟩ := trimInv_ends s hsne htrim
        have hhd := needsQuoting_false_facts '\'' s
          (Bool.not_eq_true _ ▸ hq) _ (headD_mem _ ' ' hsne)
        refine ⟨hsne, hh1, hh2, beq_eq_false_iff_ne.mpr hhd.2.2.1,
          beq_eq_false_iff_ne.mpr hhd.2.2.2.1⟩

theorem joinSep_getLastD (sep : Str) :
    ∀ (ps : List Str) (p : Str) (d : Char), p ≠ [] → (∀ x ∈ ps, x ≠ []) →
      (joinSep sep (p :: ps)).getLastD d
        = ((p :: ps).getLast?.getD []).getLastD d := by
  intro ps
  induction ps with
  | nil =>
    intro p d _ _
    rfl
  | cons q qs ih =>
    intro p d hp hall
    have hq : q ≠ [] := hall q (List.mem_cons_self q qs)
    have hJ : joinSep sep (q :: qs) ≠ [] := joinSep_ne_nil sep q qs hq
    rw [joinSep, List.append_assoc,
      getLastD_append_right _ _ _ (by
        intro hc
        rcases List.append_eq_nil.mp hc with ⟨_, hc2⟩
        exact hJ hc2),
      getLastD_append_right _ _ _ hJ,
      ih q d hq (fun y hy => hall y (List.mem_cons_of_mem q hy))]
    rw [List.getLast?_cons_cons]

theorem parseDataRow_pieces (numAttrs ln : Nat) (ps : List Str) (hne : ps ≠ [])
    (hwf : ∀ p ∈ ps, WFPiece p)
    (hheadBrace : ((joinSep [','] ps).headD ' ' == '{') = false)
    (hcount : ps.length = numAttrs) :
    parseDataRow (str "?") (joinSep [','] ps) numAttrs ln
      = .ok (ps.map (cleanValue (str "?"))) := by
  rw [parseDataRow]
  rw [hheadBrace, Bool.false_and]
  rw [if_neg Bool.false_ne_true]
  have hsplit : splitDense (str "?") (joinSep [','] ps)
      = ps.map (cleanValue (str "?")) := by
    rw [splitDense, splitDense_join (str "?") ps [] hne hwf]
    rfl
  show (if (splitDense (str "?") (joinSep [','] ps)).length = numAttrs
    then Except.ok (splitDense (str "?") (joinSep [','] ps))
    else Except.error (⟨.wrongNumValues numAttrs
      (splitDense (str "?") (joinSep [','] ps)).length,
      some ln, some (joinSep [','] ps)⟩ : ParseErr)) = _
  rw [hsplit]
  rw [if_pos (by rw [List.length_map]; exact hcount)]

theorem processLine_rowJoin (st : ParseState) (p0 : Attribute × CellValue)
    (rest : List (Attribute × CellValue))
    (hd : st.inData = true)
    (hcount : (p0 :: rest).length = st.attrs.length)
    (h : ∀ p ∈ p0 :: rest, safeAttr p.1 = true ∧ safeCellFor p.1 p.2 = true) :
    processLine (str "?") st
        (joinSep [','] ((p0 :: rest).map (fun p => serCell p.1 p.2)))
      = .ok { st with rows := st.rows ++ [(p0 :: rest).map (fun p => rawTok p.1 p.2)], lineNumber := st.lineNumber + 1 } := by
  have hp := h p0 (List.mem_cons_self p0 rest)
  have e0 := serCell_ends p0.1 p0.2 hp.1 hp.2
  have hmap : (p0 :: rest).map (fun p => serCell p.1 p.2)
      = serCell p0.1 p0.2 :: rest.map (fun p => serCell p.1 p.2) := rfl
  have hallne : ∀ x ∈ (p0 :: rest).map (fun p => serCell p.1 p.2), x ≠ [] := by
    intro x hx
    obtain ⟨p, hpmem, rfl⟩ := List.mem_map.mp hx
    exact (serCell_ends p.1 p.2 (h p hpmem).1 (h p hpmem).2).1
  have hallwf : ∀ x ∈ (p0 :: rest).map (fun p => serCell p.1 p.2), WFPiece x := by
    intro x hx
    obtain ⟨p, hpmem, rfl⟩ := List.mem_map.mp hx
    exact serCell_wf p.1 p.2 (h p hpmem).1 (h p hpmem).2
  have hLne : joinSep [','] ((p0 :: rest).map (fun p => serCell p.1 p.2)) ≠ [] := by
    rw [hmap]; exact joinSep_ne_nil _ _ _ e0.1
  have hLhead : (joinSep [','] ((p0 :: rest).map
      (fun p => serCell p.1 p.2))).headD ' ' = (serCell p0.1 p0.2).headD ' ' := by
    rw [hmap]; exact joinSep_head _ _ _ _ e0.1
  have hLlastw : wsp ((joinSep [','] ((p0 :: rest).map
      (fun p => serCell p.1 p.2))).getLastD ' ') = false := by
    obtain ⟨x, hxmem, hxeq⟩ := joinSep_getLast_mem [',']
      (rest.map (fun p => serCell p.1 p.2)) (serCell p0.1 p0.2) ' ' e0.1
      (fun y hy => hallne y (by rw [hmap]; exact List.mem_cons_of_mem _ hy))
    rw [hmap, hxeq]
    rw [← hmap] at hxmem
    obtain ⟨p, hpmem, rfl⟩ := List.mem_map.mp hxmem
    exact (serCell_ends p.1 p.2 (h p hpmem).1 (h p hpmem).2).2.2.1
  have hLstrip : pstrip (joinSep [','] ((p0 :: rest).map
      (fun p => serCell p.1 p.2)))
      = joinSep [','] ((p0 :: rest).map (fun p => serCell p.1 p.2)) :=
    pstrip_eq_self _ (trimInv_of_ends _
      (by rw [hLhead]; exact e0.2.1) hLlastw)
  have hpd : parseDataRow (str "?")
      (joinSep [','] ((p0 :: rest).map (fun p => serCell p.1 p.2)))
      st.attrs.length (st.lineNumber + 1)
      = .ok (((p0 :: rest).map (fun p => serCell p.1 p.2)).map
          (cleanValue (str "?"))) :=
    parseDataRow_pieces st.attrs.length (st.lineNumber + 1) _
      (by rw [hmap]; simp) hallwf
      (by rw [hLhead]; exact e0.2.2.2.2)
      (by rw [List.length_map]; exact hcount)
  have htok : (((p0 :: rest).map (fun p => serCell p.1 p.2)).map
      (cleanValue (str "?")))
      = (p0 :: rest).map (fun p => rawTok p.1 p.2) := by
    rw [List.map_map]
    exact List.map_congr_left (fun p hpmem =>
      cleanValue_serCell p.1 p.2 (h p hpmem).1 (h p hpmem).2)
  simp only [processLine]
  rw [hLstrip, isEmpty_false_of_ne _ hLne]
  simp only [Bool.false_eq_true, if_false]
  rw [show ((joinSep [','] ((p0 :: rest).map
    (fun p => serCell p.1 p.2))).headD ' ' == '%') = false from by
    rw [hLhead]; exact e0.2.2.2.1]
  simp only [Bool.false_eq_true, if_false, hd, if_true]
  rw [hpd, htok]

/-! ## Whole-file round trip assembly -/

theorem safeAttr_not_date (a : Attribute) (ha : safeAttr a = true) :
    a.type ≠ AttributeType.DATE := by
  intro hc
  rcases safeAttr_type a ha with h | h | h | h <;> rw [h] at hc <;>
    exact AttributeType.noConfusion hc

theorem attrFlags_nodate (dm : DateModel) (m : Str) (rows : List (List Str)) :
    ∀ (attrs : List Attribute) (j : Nat),
      (∀ a ∈ attrs, a.type ≠ AttributeType.DATE) →
      attrFlags dm m rows attrs j = attrs.map (fun a => (a, true)) := by
  intro attrs
  induction attrs with
  | nil => intro j _; rfl
  | cons a as ih =>
    intro j h
    rw [attrFlags, if_neg (h a (List.mem_cons_self a as)),
      ih (j + 1) (fun x hx => h x (List.mem_cons_of_mem a hx))]
    rfl

theorem coerceRow_rawTok (dm : DateModel) :
    ∀ (attrs : List Attribute) (r : List CellValue),
      r.length = attrs.length →
      (∀ p ∈ attrs.zip r, safeAttr p.1 = true ∧ safeCellFor p.1 p.2 = true) →
      List.zipWith (fun (p : Attribute × Bool) tok => coerceCell dm (str "?") p.1 p.2 tok)
        (attrs.map (fun a => (a, true)))
        ((attrs.zip r).map (fun p => rawTok p.1 p.2)) = r := by
  intro attrs
  induction attrs with
  | nil =>
    intro r hlen _
    cases r with
    | nil => rfl
    | cons v vr => simp at hlen
  | cons a as ih =>
    intro r hlen h
    cases r with
    | nil => simp at hlen
    | cons v vr =>
      have hhead := h (a, v) (by rw [List.zip_cons_cons]; exact List.mem_cons_self _ _)
      simp only [List.zip_cons_cons, List.map_cons, List.zipWith_cons_cons]
      rw [coerceCell_rawTok dm a v true hhead.1 hhead.2]
      rw [ih vr (by simpa using hlen) (fun p hp => h p (by
        rw [List.zip_cons_cons]; exact List.mem_cons_of_mem _ hp))]

theorem createDataFrame_round (dm : DateModel) (attrs : List Attribute)
    (rows : List (List CellValue))
    (hattrs : ∀ a ∈ attrs, safeAttr a = true)
    (h : ∀ r ∈ rows, r.length = attrs.length
        ∧ ∀ p ∈ attrs.zip r, safeCellFor p.1 p.2 = true) :
    createDataFrame dm (str "?")
        (rows.map (fun r => (attrs.zip r).map (fun p => rawTok p.1 p.2))) attrs
      = rows := by
  rw [createDataFrame,
    attrFlags_nodate dm (str "?") _ attrs 0
      (fun a ha => safeAttr_not_date a (hattrs a ha))]
  rw [List.map_map]
  have : rows.map ((fun r => List.zipWith
        (fun (p : Attribute × Bool) tok => coerceCell dm (str "?") p.1 p.2 tok)
        (attrs.map (fun a => (a, true))) r)
      ∘ (fun r => (attrs.zip r).map (fun p => rawTok p.1 p.2)))
      = rows.map id := by
    apply List.map_congr_left
    intro r hr
    show List.zipWith _ (attrs.map (fun a => (a, true)))
        ((attrs.zip r).map (fun p => rawTok p.1 p.2)) = r
    exact coerceRow_rawTok dm attrs r (h r hr).1
      (fun p hp => ⟨hattrs p.1 (List.of_mem_zip hp).1, (h r hr).2 p hp⟩)
  rw [this, List.map_id]

theorem processLines_seg (m : Str) (seg tail : List Str) (st st2 : ParseState)
    (h : processLines m st seg = .ok st2) :
    processLines m st (seg ++ tail) = processLines m st2 tail := by
  rw [processLines_append, h]

theorem processLines_attrs (m : Str) (attrs : List Attribute)
    (h : ∀ a ∈ attrs, safeAttr a = true) :
    ∀ st, st.inData = false →
      processLines m st (attrs.map (writeAttributeLine defaultWriterCfg))
        = .ok { st with attrs := st.attrs ++ attrs, lineNumber := st.lineNumber + attrs.length } := by
  induction attrs with
  | nil =>
    intro st _
    show Except.ok st = _
    simp
  | cons a as ih =>
    intro st hin
    rw [List.map_cons,
      processLines_cons_ok m _ _ st _
        (processLine_attribute m st a hin (h a (List.mem_cons_self a as)))]
    rw [ih (fun x hx => h x (List.mem_cons_of_mem a hx))
      ({ st with attrs := st.attrs ++ [a], lineNumber := st.lineNumber + 1 }) hin]
    simp [List.append_assoc]
    omega

theorem processLines_rows (attrs : List Attribute) (rows : List (List CellValue))
    (hane : attrs ≠ [])
    (h : ∀ r ∈ rows, r.length = attrs.length
        ∧ ∀ p ∈ attrs.zip r, safeAttr p.1 = true ∧ safeCellFor p.1 p.2 = true) :
    ∀ st, st.inData = true → st.attrs = attrs →
      processLines (str "?") st
          (rows.map (fun r =>
            joinSep [','] ((attrs.zip r).map (fun p => serCell p.1 p.2))))
        = .ok { st with rows := st.rows ++ rows.map (fun r => (attrs.zip r).map (fun p => rawTok p.1 p.2)), lineNumber := st.lineNumber + rows.length } := by
  induction rows with
  | nil =>
    intro st _ _
    show Except.ok st = _
    simp
  | cons r rs ih =>
    intro st hin hattrs
    obtain ⟨a0, as, hA⟩ : ∃ a0 as, attrs = a0 :: as := by
      cases attrs with
      | nil => exact absurd rfl hane
      | cons x xs => exact ⟨x, xs, rfl⟩
    have hr := h r (List.mem_cons_self r rs)
    obtain ⟨v0, vr, hR⟩ : ∃ v0 vr, r = v0 :: vr := by
      cases r with
      | nil => rw [hA] at hr; simp at hr
      | cons x xs => exact ⟨x, xs, rfl⟩
    have hz : attrs.zip r = (a0, v0) :: as.zip vr := by
      rw [hA, hR]; rfl
    have hcount : ((a0, v0) :: as.zip vr).length = st.attrs.length := by
      have hlr := hr.1
      rw [hA, hR] at hlr
      simp only [List.length_cons] at hlr
      rw [hattrs, hA]
      simp [List.length_zip]
      omega
    have hline := processLine_rowJoin st (a0, v0) (as.zip vr) hin hcount
      (by rw [← hz]; exact hr.2)
    rw [List.map_cons,
      processLines_cons_ok _ _ _ st
        ({ st with rows := st.rows ++ [(attrs.zip r).map (fun p => rawTok p.1 p.2)], lineNumber := st.lineNumber + 1 })
        (by rw [hz]; exact hline)]
    rw [ih (fun x hx => h x (List.mem_cons_of_mem r hx))
      ({ st with rows := st.rows ++ [(attrs.zip r).map (fun p => rawTok p.1 p.2)], lineNumber := st.lineNumber + 1 })
      hin hattrs]
    simp [List.append_assoc]
    omega

theorem safeDataset_facts (d : ArffData) (h : safeDataset d = true) :
    safeRelName d.relation_name = true
      ∧ d.attributes ≠ []
      ∧ (∀ a ∈ d.attributes, safeAttr a = true)
      ∧ (∀ c ∈ d.comments, trimInv c = true)
      ∧ (∀ r ∈ d.data, r.length = d.attributes.length
          ∧ ∀ p ∈ d.attributes.zip r, safeCellFor p.1 p.2 = true) := by
  rw [safeDataset] at h
  simp only [Bool.and_eq_true, List.all_eq_true] at h
  obtain ⟨⟨⟨⟨⟨h1, h2⟩, h3⟩, _⟩, h5⟩, h6⟩ := h
  refine ⟨h1, ?_, h3, ?_, ?_⟩
  · intro hc
    rw [hc] at h2
    simp at h2
  · intro c hc
    exact (h5 c hc).1
  · intro r hr
    exact ⟨by simpa using (h6 r hr).1, fun p hp => (h6 r hr).2 p hp⟩

theorem roundTrip_tail (d : ArffData)
    (hrel : safeRelName d.relation_name = true)
    (hane : d.attributes ≠ [])
    (hattrs : ∀ a ∈ d.attributes, safeAttr a = true)
    (hdata : ∀ r ∈ d.data, r.length = d.attributes.length
        ∧ ∀ p ∈ d.attributes.zip r, safeCellFor p.1 p.2 = true)
    (st : ParseState) (hin : st.inData = false) (ha : st.attrs = [])
    (hrw : st.rows = []) (hcm : st.comments = d.comments) :
    ∃ k, processLines (str "?") st
        ([writeRelationLine d.relation_name, []]
          ++ (d.attributes.map (writeAttributeLine defaultWriterCfg)
            ++ ([[], str "@DATA"]
              ++ d.data.map (fun r =>
                joinSep [','] ((d.attributes.zip r).map (fun p => serCell p.1 p.2))))))
      = .ok ⟨some d.relation_name, d.attributes,
          d.data.map (fun r => (d.attributes.zip r).map (fun p => rawTok p.1 p.2)),
          d.comments, true, k⟩ := by
  have hdata2 : ∀ r ∈ d.data, r.length = d.attributes.length
      ∧ ∀ p ∈ d.attributes.zip r, safeAttr p.1 = true ∧ safeCellFor p.1 p.2 = true :=
    fun r hr => ⟨(hdata r hr).1, fun p hp =>
      ⟨hattrs p.1 (List.of_mem_zip hp).1, (hdata r hr).2 p hp⟩⟩
  refine ⟨st.lineNumber + 2 + d.attributes.length + 2 + d.data.length, ?_⟩
  show processLines (str "?") st
      (writeRelationLine d.relation_name :: ([]
        :: (d.attributes.map (writeAttributeLine defaultWriterCfg)
          ++ ([[], str "@DATA"]
            ++ d.data.map (fun r =>
              joinSep [','] ((d.attributes.zip r).map (fun p => serCell p.1 p.2)))))))
    = _
  rw [processLines_cons_ok _ _ _ st _
    (processLine_relation (str "?") st d.relation_name hin hrel)]
  rw [processLines_cons_ok _ _ _ _ _ (processLine_blank (str "?") _)]
  show processLines (str "?") (⟨some d.relation_name, st.attrs, st.rows,
      st.comments, st.inData, st.lineNumber + 2⟩ : ParseState)
      (d.attributes.map (writeAttributeLine defaultWriterCfg)
        ++ ([[], str "@DATA"]
          ++ d.data.map (fun r =>
            joinSep [','] ((d.attributes.zip r).map (fun p => serCell p.1 p.2)))))
    = _
  rw [ha, hrw, hcm, hin]
  rw [processLines_seg _ _ _ _ _
    (processLines_attrs (str "?") d.attributes hattrs
      (⟨some d.relation_name, [], [], d.comments, false,
        st.lineNumber + 2⟩ : ParseState) rfl)]
  show processLines (str "?") (⟨some d.relation_name, d.attributes, [],
      d.comments, false, st.lineNumber + 2 + d.attributes.length⟩ : ParseState)
      ([] :: (str "@DATA"
        :: d.data.map (fun r =>
          joinSep [','] ((d.attributes.zip r).map (fun p => serCell p.1 p.2)))))
    = _
  rw [processLines_cons_ok _ _ _ _ _ (processLine_blank (str "?") _)]
  rw [processLines_cons_ok _ _ _ _ _
    (processLine_dataDirective (str "?")
      (⟨some d.relation_name, d.attributes, [], d.comments, false,
        st.lineNumber + 2 + d.attributes.length + 1⟩ : ParseState) rfl)]
  rw [processLines_rows d.attributes d.data hane hdata2
    (⟨some d.relation_name, d.attributes, [], d.comments, true,
      st.lineNumber + 2 + d.attributes.length + 2⟩ : ParseState) rfl rfl]
  rfl

theorem writeParse_round (dm : DateModel) (d : ArffData)
    (h : safeDataset d = true) :
    ∃ lines, writeArffData dm defaultWriterCfg d = .ok lines
      ∧ parseLines dm (str "?") lines = .ok d := by
  obtain ⟨hrel, hane, hattrs, hcomm, hdata⟩ := safeDataset_facts d h
  have hcells : ∀ r ∈ d.data, ∀ p ∈ d.attributes.zip r,
      safeAttr p.1 = true ∧ safeCellFor p.1 p.2 = true :=
    fun r hr p hp => ⟨hattrs p.1 (List.of_mem_zip hp).1, (hdata r hr).2 p hp⟩
  refine ⟨_, writeArffData_safe dm d hcells, ?_⟩
  rw [parseLines]
  have hmain : ∃ k, processLines (str "?") initState
      ((d.comments.map (fun c => str "% " ++ c))
        ++ (if d.comments.isEmpty then [] else [[]])
        ++ [writeRelationLine d.relation_name, []]
        ++ d.attributes.map (writeAttributeLine defaultWriterCfg)
        ++ [[], str "@DATA"]
        ++ d.data.map (fun r =>
            joinSep [','] ((d.attributes.zip r).map (fun p => serCell p.1 p.2))))
      = .ok ⟨some d.relation_name, d.attributes,
          d.data.map (fun r => (d.attributes.zip r).map (fun p => rawTok p.1 p.2)),
          d.comments, true, k⟩ := by
    simp only [List.append_assoc]
    by_cases hce : d.comments = []
    · have hml : d.comments.map (fun c => str "% " ++ c) = [] := by rw [hce]; rfl
      have hbl : (if d.comments.isEmpty = true then ([] : List Str) else [[]])
          = [] := by rw [hce]; rfl
      rw [hml, hbl]
      simp only [List.nil_append]
      exact roundTrip_tail d hrel hane hattrs hdata initState rfl rfl rfl
        (by rw [hce]; rfl)
    · rw [processLines_seg _ _ _ _ _
        (processLines_comments (str "?") d.comments hcomm initState)]
      rw [if_neg (by
        intro hc
        exact hce (by
          cases hcc : d.comments with
          | nil => rfl
          | cons x xs => rw [hcc] at hc; simp at hc))]
      show ∃ k, processLines (str "?") (⟨none, [], [], d.comments, false,
          0 + d.comments.length⟩ : ParseState)
        ([] :: ([writeRelationLine d.relation_name, []]
          ++ (d.attributes.map (writeAttributeLine defaultWriterCfg)
            ++ ([[], str "@DATA"]
              ++ d.data.map (fun r =>
                joinSep [','] ((d.attributes.zip r).map
                  (fun p => serCell p.1 p.2))))))) = _
      rw [processLines_cons_ok _ _ _ _ _ (processLine_blank (str "?") _)]
      exact roundTrip_tail d hrel hane hattrs hdata
        (⟨none, [], [], d.comments, false, 0 + d.comments.length + 1⟩ : ParseState)
        rfl rfl rfl rfl
  obtain ⟨k, hk⟩ := hmain
  rw [hk]
  show (if d.attributes.isEmpty = true
    then Except.error (⟨.missingAttributes, none, none⟩ : ParseErr)
    else Except.ok (⟨d.relation_name, d.attributes,
      createDataFrame dm (str "?")
        (d.data.map (fun r => (d.attributes.zip r).map (fun p => rawTok p.1 p.2)))
        d.attributes, d.comments⟩ : ArffData)) = _
  rw [isEmpty_false_of_ne _ hane]
  simp only [Bool.false_eq_true, if_false]
  rw [createDataFrame_round dm d.attributes d.data hattrs hdata]

/-! ## Field-count invariant (C3) -/

theorem sparsePairStep_length (marker : Str) (n ln : Nat) (line : Str)
    (values : List Str) (p : Str) (v2 : List Str)
    (h : sparsePairStep marker n ln line values p = .ok v2) :
    v2.length = values.length := by
  simp only [sparsePairStep] at h
  split at h
  · injection h with h3
    rw [← h3]
  · split at h
    · exact Except.noConfusion h
    · split at h
      · exact Except.noConfusion h
      · split at h
        · exact Except.noConfusion h
        · injection h with h3
          rw [← h3, List.length_set]

theorem sparseFold_length (step : List Str → Str → Except ParseErr (List Str))
    (hstep : ∀ v p v2, step v p = .ok v2 → v2.length = v.length) :
    ∀ (ps : List Str) (values v2 : List Str),
      sparseFold step values ps = .ok v2 → v2.length = values.length := by
  intro ps
  induction ps with
  | nil =>
    intro values v2 h
    injection h with h3
    rw [← h3]
  | cons p pr ih =>
    intro values v2 h
    rw [sparseFold] at h
    cases hs : step values p with
    | error e => rw [hs] at h; exact Except.noConfusion h
    | ok v =>
      rw [hs] at h
      rw [ih v v2 h, hstep values p v hs]

theorem parseSparseRow_ok_length (marker line : Str) (n ln : Nat)
    (row : List Str) (h : parseSparseRow marker line n ln = .ok row) :
    row.length = n := by
  simp only [parseSparseRow] at h
  split at h
  · injection h with h3
    rw [← h3, List.length_replicate]
  · have := sparseFold_length _
      (fun v p v2 hv => sparsePairStep_length marker n ln line v p v2 hv)
      _ _ _ h
    rw [this, List.length_replicate]

theorem parseDataRow_ok_length (marker line : Str) (n ln : Nat)
    (row : List Str) (h : parseDataRow marker line n ln = .ok row) :
    row.length = n := by
  simp only [parseDataRow] at h
  split at h
  · exact parseSparseRow_ok_length marker line n ln row h
  · split at h
    · rename_i hlen
      injection h with h3
      rw [← h3]
      exact hlen
    · exact Except.noConfusion h

theorem processLine_rowInv (m : Str) (st : ParseState) (l : Str) (st2 : ParseState)
    (h : processLine m st l = .ok st2)
    (h1 : st.inData = false → st.rows = [])
    (h2 : ∀ r ∈ st.rows, r.length = st.attrs.length) :
    (st2.inData = false → st2.rows = [])
      ∧ ∀ r ∈ st2.rows, r.length = st2.attrs.length := by
  simp only [processLine] at h
  split at h
  · injection h with h3
    subst h3
    exact ⟨fun hf => h1 hf, h2⟩
  · split at h
    · injection h with h3
      subst h3
      exact ⟨fun hf => h1 hf, h2⟩
    · split at h
      · rename_i hin
        split at h
        · exact Except.noConfusion h
        · rename_i row heq
          injection h with h3
          subst h3
          constructor
          · intro hf
            have hff : st.inData = false := hf
            rw [hin] at hff
            exact Bool.noConfusion hff
          · intro r hr
            have hr2 : r ∈ st.rows ++ [row] := hr
            rcases List.mem_append.mp hr2 with hma | hmb
            · exact h2 r hma
            · have hrr : r = row := by simpa using hmb
              subst hrr
              exact parseDataRow_ok_length m _ _ _ r heq
      · rename_i hnin
        have hfalse : st.inData = false := by
          cases hb : st.inData with
          | false => rfl
          | true => exact absurd hb hnin
        split at h
        · injection h with h3
          subst h3
          refine ⟨fun hf => ?_, h2⟩
          exact Bool.noConfusion (hf : true = false)
        · split at h
          · injection h with h3
            subst h3
            exact ⟨fun _ => h1 hfalse, h2⟩
          · split at h
            · split at h
              · exact Except.noConfusion h
              · rename_i attr heq2
                injection h with h3
                subst h3
                constructor
                · intro _
                  exact h1 hfalse
                · intro r hr
                  have hre : r ∈ st.rows := hr
                  rw [h1 hfalse] at hre
                  cases hre
            · split at h
              · exact Except.noConfusion h
              · injection h with h3
                subst h3
                exact ⟨fun hf => h1 hf, h2⟩

theorem processLines_rowInv (m : Str) :
    ∀ (lines : List Str) (st st2 : ParseState),
      (st.inData = false → st.rows = []) →
      (∀ r ∈ st.rows, r.length = st.attrs.length) →
      processLines m st lines = .ok st2 →
      ∀ r ∈ st2.rows, r.length = st2.attrs.length := by
  intro lines
  induction lines with
  | nil =>
    intro st st2 _ h2 h
    injection h with h3
    subst h3
    exact h2
  | cons l ls ih =>
    intro st st2 h1 h2 h
    rw [processLines] at h
    cases hs : processLine m st l with
    | error e => rw [hs] at h; exact Except.noConfusion h
    | ok stm =>
      rw [hs] at h
      have hinv := processLine_rowInv m st l stm hs h1 h2
      exact ih stm st2 hinv.1 hinv.2 h

/-! ## Claim theorems -/

/-- A safe example dataset for the round-trip witness: a numeric and a
nominal attribute, a comment, and names and values that need quoting. -/
def D0 : ArffData :=
  ⟨str "rel",
   [⟨str "num", .NUMERIC, none, none⟩,
    ⟨str "col b", .NOMINAL, some [str "x", str "y z"], none⟩],
   [[.num 25 1, .text (str "x")],
    [.num (-5) 0, .text (str "y z")]],
   [str "hello"]⟩

/-- A dataset with no missing value whose STRING cell holds the text `?`:
the written token collides with the missing marker. -/
def Dq : ArffData :=
  ⟨str "r", [⟨str "a", .STRING, none, none⟩], [[.text (str "?")]], []⟩

/-- A dataset with an infinite value in a numeric column. -/
def Dinf : ArffData :=
  ⟨str "r", [⟨str "a", .NUMERIC, none, none⟩], [[.posInf]], []⟩

/-- The object column `[1,2,3,1,2,3]` named `category` of claim C6. -/
def col6 : Column :=
  ⟨str "category", .objectDt,
   [.intO 1, .intO 2, .intO 3, .intO 1, .intO 2, .intO 3]⟩

/-- C1 (amended): write-then-parse is the identity on every dataset
satisfying `safeDataset` (safe relation and attribute names, a nonempty
duplicate-free attribute list of NUMERIC/INTEGER/STRING/NOMINAL kinds,
strip-invariant comments, rows of the declared width whose cells are
canonical numerics or safe text in the nominal domain); relation name,
attribute order and row order are preserved exactly. -/
theorem C1_roundtrip_safe (dm : DateModel) (d : ArffData)
    (h : safeDataset d = true) :
    ∃ lines, writeArffData dm defaultWriterCfg d = .ok lines
      ∧ parseLines dm (str "?") lines = .ok d :=
  writeParse_round dm d h

theorem C1_roundtrip_safe_witness :
    safeDataset D0 = true
      ∧ ∃ lines, writeArffData simpleDateModel defaultWriterCfg D0 = .ok lines
          ∧ parseLines simpleDateModel (str "?") lines = .ok D0 :=
  ⟨by decide, C1_roundtrip_safe simpleDateModel D0 (by decide)⟩

/-- C1 counterexample to the claim as stated: `Dq` has no missing value and
only a STRING attribute, yet its serialization parses back with the `?`
cell turned into a missing value, so parse after write is not the
identity under the claim's own hypotheses. -/
theorem C1_roundtrip_counterexample :
    (∀ r ∈ Dq.data, CellValue.missing ∉ r)
      ∧ (∀ a ∈ Dq.attributes, a.type = AttributeType.STRING)
      ∧ writeArffData simpleDateModel defaultWriterCfg Dq
          = .ok [str "@RELATION r", [], str "@ATTRIBUTE a STRING", [],
              str "@DATA", str "?"]
      ∧ parseLines simpleDateModel (str "?")
          [str "@RELATION r", [], str "@ATTRIBUTE a STRING", [],
            str "@DATA", str "?"]
          = .ok ⟨str "r", [⟨str "a", .STRING, none, none⟩],
              [[CellValue.missing]], []⟩
      ∧ (⟨str "r", [⟨str "a", .STRING, none, none⟩],
          [[CellValue.missing]], []⟩ : ArffData) ≠ Dq := by
  decide

/-- C2: the sparse row `{0 1.0, 2 3.0}` against 4 attributes parses to the
same token list as the dense row `1.0,?,3.0,?` (missing marker in the
unlisted positions), and an empty sparse row initializes every column to
the missing marker. -/
theorem C2_sparse_dense_equivalence :
    parseDataRow (str "?") (str "{0 1.0, 2 3.0}") 4 1
        = .ok [str "1.0", str "?", str "3.0", str "?"]
      ∧ parseDataRow (str "?") (str "1.0,?,3.0,?") 4 1
          = parseDataRow (str "?") (str "{0 1.0, 2 3.0}") 4 1
      ∧ ∀ (n ln : Nat) (marker : Str),
          parseSparseRow marker (str "{}") n ln
            = .ok (List.replicate n marker) := by
  refine ⟨by decide, by decide, fun n ln marker => rfl⟩

/-- C3: every state a successful parse reaches has rows exactly as wide as
its attribute list, and a dense data line whose quote-aware comma split
yields the wrong token count errors with that count, the line number and
the line content. -/
theorem C3_field_count :
    (∀ (lines : List Str) (st : ParseState),
        processLines (str "?") initState lines = .ok st →
        ∀ r ∈ st.rows, r.length = st.attrs.length)
      ∧ (∀ (line : Str) (n ln : Nat),
          ((line.headD ' ' == '{') && (line.getLastD ' ' == '}')) = false →
          (splitDense (str "?") line).length ≠ n →
          parseDataRow (str "?") line n ln
            = .error ⟨.wrongNumValues n (splitDense (str "?") line).length,
                some ln, some line⟩) := by
  constructor
  · intro lines st h
    exact processLines_rowInv (str "?") lines initState st (fun _ => rfl)
      (by intro r hr; cases hr) h
  · intro line n ln hcond hlen
    rw [parseDataRow, hcond]
    rw [if_neg Bool.false_ne_true]
    show (if (splitDense (str "?") line).length = n
      then Except.ok (splitDense (str "?") line)
      else Except.error (⟨.wrongNumValues n (splitDense (str "?") line).length,
        some ln, some line⟩ : ParseErr)) = _
    rw [if_neg hlen]

theorem C3_field_count_witness :
    (∀ r ∈ (⟨some (str "r"), [⟨str "a", .NUMERIC, none, none⟩],
        [[str "1.0"]], [], true, 4⟩ : ParseState).rows,
        r.length = (⟨some (str "r"), [⟨str "a", .NUMERIC, none, none⟩],
          [[str "1.0"]], [], true, 4⟩ : ParseState).attrs.length)
      ∧ parseDataRow (str "?") (str "1.0,2.0") 3 5
          = .error ⟨.wrongNumValues 3 2, some 5, some (str "1.0,2.0")⟩ := by
  constructor
  · exact C3_field_count.1
      [str "@RELATION r", str "@ATTRIBUTE a NUMERIC", str "@DATA", str "1.0"]
      _ (by decide)
  · have h := C3_field_count.2 (str "1.0,2.0") 3 5 (by decide) (by decide)
    rw [show (splitDense (str "?") (str "1.0,2.0")).length = 2 from by decide] at h
    exact h

/-- C4: `hello, world` serializes with single quotes and the quote-aware
dense split plus cleaning recovers it exactly, comma preserved; the empty
string serializes to a pair of quotes and comes back empty, which the
marker replacement keeps distinct from the missing marker `?`. -/
theorem C4_quoting_roundtrip :
    quoteIfNeeded '\'' (str "hello, world") = str "'hello, world'"
      ∧ splitDense (str "?") (quoteIfNeeded '\'' (str "hello, world"))
          = [str "hello, world"]
      ∧ quoteIfNeeded '\'' [] = str "''"
      ∧ splitDense (str "?") (quoteIfNeeded '\'' []) = [[]]
      ∧ textCell (str "?") [] = .text []
      ∧ textCell (str "?") (str "?") = .missing
      ∧ CellValue.text [] ≠ CellValue.missing := by
  decide

/-- C5 (amended): a relation or attribute name is wrapped in single quotes
exactly when it contains a space, a comma or a percent sign (a quote
character alone does not trigger name quoting), while a nonempty data
value containing a space, comma, percent, brace, quote or double quote is
quoted with the quote characters escaped. -/
theorem C5_quoting_amended (n v : Str) (hn : needsNameQuote n = true)
    (hv : needsQuoting '\'' v = true) :
    quoteNameIfNeeded n = '\'' :: (n ++ ['\''])
      ∧ quoteIfNeeded '\'' v = '\'' :: (escapeQuote '\'' v ++ ['\''])
      ∧ ∀ m : Str, needsNameQuote m = false → quoteNameIfNeeded m = m := by
  refine ⟨?_, ?_, ?_⟩
  · rw [quoteNameIfNeeded,
      if_pos (show (n.any (fun c => c == ' ' || c == ',' || c == '%')) = true
        from hn)]
  · have hvne : v.isEmpty = false := by
      cases hc : v with
      | nil => rw [hc] at hv; exact absurd hv (by decide)
      | cons a as => rfl
    rw [quoteIfNeeded, if_neg (by rw [hvne]; exact Bool.false_ne_true),
      if_pos hv]
  · intro m hm
    have hx : (m.any (fun c => c == ' ' || c == ',' || c == '%')) = false := hm
    rw [quoteNameIfNeeded, if_neg (by rw [hx]; exact Bool.false_ne_true)]

theorem C5_quoting_amended_witness :
    quoteNameIfNeeded (str "a b") = '\'' :: (str "a b" ++ ['\''])
      ∧ quoteIfNeeded '\'' (str "x,y")
          = '\'' :: (escapeQuote '\'' (str "x,y") ++ ['\''])
      ∧ ∀ m : Str, needsNameQuote m = false → quoteNameIfNeeded m = m :=
  C5_quoting_amended (str "a b") (str "x,y") (by decide) (by decide)

/-- C5 counterexample to the claim as stated: the name `a'b` contains a
quote character, yet both the relation and the attribute writers emit it
without quoting. -/
theorem C5_quoting_counterexample :
    ('\'' ∈ str "a'b")
      ∧ writeRelationLine (str "a'b") = str "@RELATION a'b"
      ∧ writeAttributeLine defaultWriterCfg
          ⟨str "a'b", .STRING, none, none⟩ = str "@ATTRIBUTE a'b STRING" := by
  decide

/-- C6 (amended): for the object column `[1,2,3,1,2,3]` named `category`
and any configured nominal threshold of at least its 3 distinct values,
inference yields kind NOMINAL with the sorted distinct values rendered as
text; thresholds below 3 (though `20 or lower`) yield STRING instead. -/
theorem C6_nominal_inference (t : Nat) (h : 3 ≤ t) :
    inferAttribute (some t) col6
      = ⟨str "category", .NOMINAL, some [str "1", str "2", str "3"], none⟩ := by
  have hstep : inferAttribute (some t) col6
      = if nunique col6.values ≤ t then
          ⟨col6.name, .NOMINAL,
            some (sortStrs ((dedupFS (dropNa col6.values)).map objStr)), none⟩
        else ⟨col6.name, .STRING, none, none⟩ := rfl
  rw [hstep, show nunique col6.values = 3 from rfl, if_pos h]
  decide

theorem C6_nominal_inference_witness :
    3 ≤ 20
      ∧ inferAttribute (some 20) col6
          = ⟨str "category", .NOMINAL, some [str "1", str "2", str "3"], none⟩ :=
  ⟨by decide, C6_nominal_inference 20 (by decide)⟩

/-- C6 counterexample to the claim as stated: the threshold 2 is `20 or
lower`, yet inference on the very column of the claim yields STRING, not
NOMINAL. -/
theorem C6_nominal_counterexample :
    2 ≤ 20
      ∧ inferAttribute (some 2) col6 = ⟨str "category", .STRING, none, none⟩
      ∧ AttributeType.STRING ≠ AttributeType.NOMINAL := by
  decide

/-- C7: if any token of a date column is neither the missing marker nor
parseable as a date, the whole-column date check fails, and with a failed
check every cell of a DATE attribute coerces to its raw text (or missing
for the marker); no error is produced. -/
theorem C7_date_degradation :
    (∀ (dm : DateModel) (fmt : Option Str) (marker : Str) (col : List Str)
        (t : Str), t ∈ col → (t == marker) = false →
        (dm.parse fmt t).isSome = false →
        dateColOk dm fmt marker col = false)
      ∧ (∀ (dm : DateModel) (marker : Str) (a : Attribute) (tok : Str),
          a.type = AttributeType.DATE →
          coerceCell dm marker a false tok = textCell marker tok) := by
  constructor
  · intro dm fmt marker col t ht hmark hparse
    cases hb : dateColOk dm fmt marker col with
    | false => rfl
    | true =>
      exfalso
      rw [dateColOk, List.all_eq_true] at hb
      have hx := hb t ht
      rw [Bool.or_eq_true] at hx
      rcases hx with hx | hx
      · rw [hmark] at hx; exact Bool.noConfusion hx
      · rw [hparse] at hx; exact Bool.noConfusion hx
  · intro dm marker a tok ht
    have hnum : a.is_numeric = false := by
      rw [Attribute.is_numeric, ht]
      rfl
    rw [coerceCell, if_neg (by rw [hnum]; exact Bool.false_ne_true),
      if_neg (by rw [ht]; intro hc; exact AttributeType.noConfusion hc),
      if_pos ht, if_neg Bool.false_ne_true]

theorem C7_date_degradation_witness :
    dateColOk simpleDateModel none (str "?") [str "x"] = false
      ∧ coerceCell simpleDateModel (str "?") ⟨str "d", .DATE, none, none⟩
          false (str "t") = textCell (str "?") (str "t") :=
  ⟨C7_date_degradation.1 simpleDateModel none (str "?") [str "x"] (str "x")
    (by decide) (by decide) (by decide),
   C7_date_degradation.2 simpleDateModel (str "?")
    ⟨str "d", .DATE, none, none⟩ (str "t") rfl⟩

/-- C8: a sparse pair whose index parses as an integer outside
`0 ≤ i < attribute count` errors as out of range with the line number and
content (shown concretely for `{10 1.0}` and `{-1 1.0}` against 2
attributes), a non-integer index errors as an invalid sparse index, and a
pair with no value half errors as an invalid sparse format. -/
theorem C8_sparse_index_validation :
    (∀ (marker : Str) (n ln : Nat) (line : Str) (values : List Str)
        (p : Str) (i : Int),
        (pstrip p).isEmpty = false →
        (splitFirstWs (pstrip p)).2.isEmpty = false →
        parseIntStr (splitFirstWs (pstrip p)).1 = some i →
        (i < 0 ∨ (n : Int) ≤ i) →
        sparsePairStep marker n ln line values p
          = .error ⟨.sparseOutOfRange i, some ln, some line⟩)
      ∧ parseSparseRow (str "?") (str "{10 1.0}") 2 7
          = .error ⟨.sparseOutOfRange 10, some 7, some (str "{10 1.0}")⟩
      ∧ parseSparseRow (str "?") (str "{-1 1.0}") 2 7
          = .error ⟨.sparseOutOfRange (-1), some 7, some (str "{-1 1.0}")⟩
      ∧ parseSparseRow (str "?") (str "{x 1.0}") 2 7
          = .error ⟨.invalidSparseIndex (str "x"), some 7, some (str "{x 1.0}")⟩
      ∧ parseSparseRow (str "?") (str "{0}") 2 7
          = .error ⟨.invalidSparseFormat, some 7, some (str "{0}")⟩ := by
  refine ⟨?_, by decide, by decide, by decide, by decide⟩
  intro marker n ln line values p i hne hval hidx hrange
  simp only [sparsePairStep]
  rw [if_neg (by rw [hne]; exact Bool.false_ne_true)]
  rw [if_neg (by rw [hval]; exact Bool.false_ne_true)]
  rw [hidx]
  show (if (decide (i < 0) || decide ((n : Int) ≤ i)) = true
    then Except.error (⟨.sparseOutOfRange i, some ln, some line⟩ : ParseErr)
    else Except.ok (values.set i.toNat
      (cleanValue marker (splitFirstWs (pstrip p)).2))) = _
  rw [if_pos (by
    rcases hrange with hr | hr
    · rw [decide_eq_true hr, Bool.true_or]
    · rw [decide_eq_true hr, Bool.or_true])]

theorem C8_sparse_index_validation_witness :
    sparsePairStep (str "?") 2 7 (str "L") [str "?", str "?"] (str "5 1.0")
      = .error ⟨.sparseOutOfRange 5, some 7, some (str "L")⟩ :=
  C8_sparse_index_validation.1 (str "?") 2 7 (str "L") [str "?", str "?"]
    (str "5 1.0") 5 (by decide) (by decide) (by decide) (Or.inr (by decide))

/-- C9 (implicit): formatting a non-missing infinite value in a numeric
column is the one untyped failure of the writer: `_format_value` raises
OverflowError (modelled as the overflow write error), and the whole write
of such a dataset fails with it instead of producing lines. -/
theorem C9_infinity_overflow :
    (∀ (dm : DateModel) (cfg : WriterCfg) (a : Attribute),
        a.is_numeric = true →
        formatValue dm cfg a .posInf = .error .overflow
          ∧ formatValue dm cfg a .negInf = .error .overflow)
      ∧ writeArffData simpleDateModel defaultWriterCfg Dinf
          = .error .overflow := by
  constructor
  · intro dm cfg a hn
    constructor
    · rw [formatValue,
        if_neg (show ¬(CellValue.posInf = CellValue.missing) from by decide),
        if_pos hn]
    · rw [formatValue,
        if_neg (show ¬(CellValue.negInf = CellValue.missing) from by decide),
        if_pos hn]
  · decide

theorem C9_infinity_overflow_witness :
    (⟨str "a", .NUMERIC, none, none⟩ : Attribute).is_numeric = true
      ∧ formatValue simpleDateModel defaultWriterCfg
          ⟨str "a", .NUMERIC, none, none⟩ .posInf = .error .overflow
      ∧ formatValue simpleDateModel defaultWriterCfg
          ⟨str "a", .NUMERIC, none, none⟩ .negInf = .error .overflow :=
  ⟨by decide, C9_infinity_overflow.1 simpleDateModel defaultWriterCfg
    ⟨str "a", .NUMERIC, none, none⟩ (by decide)⟩

/-- C10 (implicit): a second `@RELATION` line is accepted silently and
overwrites the first, so the parsed relation name is the last one; a full
parse of such a file succeeds. -/
theorem C10_duplicate_relation :
    (∀ (st : ParseState) (n1 n2 : Str), st.inData = false →
        safeRelName n1 = true → safeRelName n2 = true →
        processLines (str "?") st
            [writeRelationLine n1, writeRelationLine n2]
          = .ok { st with relation := some n2, lineNumber := st.lineNumber + 2 })
      ∧ parseLines simpleDateModel (str "?")
          [writeRelationLine (str "a"), writeRelationLine (str "b"),
            str "@ATTRIBUTE x NUMERIC", str "@DATA"]
          = .ok ⟨str "b", [⟨str "x", .NUMERIC, none, none⟩], [], []⟩ := by
  constructor
  · intro st n1 n2 hd h1 h2
    rw [processLines_cons_ok _ _ _ st _
      (processLine_relation (str "?") st n1 hd h1)]
    rw [processLines_cons_ok _ _ _ _ _
      (processLine_relation (str "?")
        (⟨some n1, st.attrs, st.rows, st.comments, st.inData,
          st.lineNumber + 1⟩ : ParseState) n2 hd h2)]
    rfl
  · decide

theorem C10_duplicate_relation_witness :
    processLines (str "?") initState
        [writeRelationLine (str "a"), writeRelationLine (str "b")]
      = .ok ⟨some (str "b"), [], [], [], false, 2⟩ :=
  C10_duplicate_relation.1 initState (str "a") (str "b") rfl
    (by decide) (by decide)
